import Mathlib

/-!
InventoryDashboard: aggregation, filtering and paging.

A shallow embedding of the pure computations of
`src/components/InventoryDashboard.jsx`: the three label aggregations
(`aggByLocation`, `aggByStatus`, the top-users list), the purchase-date time
series, the search filter and the page slice.

JavaScript values are embedded as follows.

* A row is the list of its own properties, with distinct names; `List.lookup`
  is the property read `r.key`, and `none` stands for `undefined`.
* A cell is a string, a number or empty (`null`). Strings are sequences of
  Unicode characters. Number cells are integers that a double holds exactly
  (below `2^53` in absolute value), so that their text is their decimal
  numeral; fractional numbers are outside the embedding.
* The counter object `const m = {}` is a list of own properties in creation
  order, read through its prototype `Object.prototype` and enumerated in the
  order of `Object.entries`.
* `Array.prototype.sort` is a stable sort driven by the comparator.
* Of the runtime's `Date`, the parsing of `YYYY-MM-DD` strings, the clipping of
  time values and the calendar arithmetic are embedded; the parsing of other
  strings and the local time-zone offset are parameters (`DateEnv`), and
  `toLowerCase` is a parameter of the filter.
-/

namespace InventoryDashboard

/-! ## Rows and cells -/

/-- A cell value of a row: `empty` is `null`, `str` a string, `num` a number. -/
inductive Cell where
  | empty
  | str (s : String)
  | num (n : Int)
deriving DecidableEq, Repr

/-- A row: its own properties, field name and cell, in order. -/
abbrev Row := List (String × Cell)

/-- Truthiness of a cell, as `||`, `!` and `if` test it: `null`, the empty
string and the number zero are falsy. -/
def Cell.truthy : Cell → Bool
  | .empty => false
  | .str s => s != ""
  | .num n => n != 0

/-- The text of a cell as `String(v || "")` gives it. For a truthy cell this is
also `v.toString()`: a string is itself and a number is its decimal text. A
falsy cell is replaced by `""` before it is stringified. -/
def Cell.text (c : Cell) : String :=
  if c.truthy then
    match c with
    | .str s => s
    | .num n => toString n
    | .empty => ""
  else ""

/-- The chain `r.k1 || r.k2 || ...`: the first truthy value among the listed
properties of the row, or `none` when every operand is falsy. -/
def firstTruthy (r : Row) : List String → Option Cell
  | [] => none
  | k :: ks =>
    match r.lookup k with
    | some c => if c.truthy then some c else firstTruthy r ks
    | none => firstTruthy r ks

/-- The label `(r.k1 || r.k2 || fallback).toString()`. -/
def resolve (keys : List String) (fallback : String) (r : Row) : String :=
  match firstTruthy r keys with
  | some c => c.text
  | none => fallback

/-- Accepted keys of the location field, in priority order. -/
def locationKeys : List String := ["location", "Location"]

/-- Accepted keys of the status field, in priority order. -/
def statusKeys : List String := ["status", "Status"]

/-- Accepted keys of the user field, in priority order. -/
def userKeys : List String := ["user", "User", "usuario"]

/-- Accepted keys of the purchase-date field, in priority order. -/
def purchaseKeys : List String :=
  ["purchase_date", "purchaseDate", "PurchaseDate", "purchase date"]

/-- Fallback label of the location field. -/
def locationFallback : String := "Sin ubicación"

/-- Fallback label of the status field. -/
def statusFallback : String := "Desconocido"

/-- Fallback label of the user field. -/
def userFallback : String := "Sin usuario"

/-- The label `(r.location || r.Location || "Sin ubicación").toString()`. -/
def locationOf (r : Row) : String := resolve locationKeys locationFallback r

/-- The label `(r.status || r.Status || "Desconocido").toString()`. -/
def statusOf (r : Row) : String := resolve statusKeys statusFallback r

/-- The label `(r.user || r.User || r.usuario || "Sin usuario").toString()`. -/
def userOf (r : Row) : String := resolve userKeys userFallback r

/-! ## The counter object `const m = {}` -/

/-- A value stored in the counter object by `m[k] = (m[k] || 0) + 1`: a number,
or `junk name ones`, the string `String(Object.prototype[name])` followed by
`ones` characters `1`, which arises when `m[k]` is first read through the
prototype. Such a string never converts to a number. -/
inductive CountVal where
  | num (n : Nat)
  | junk (name : String) (ones : Nat)
deriving DecidableEq, Repr

/-- The own properties of the counter object, in creation order. -/
abbrev CountObj := List (String × CountVal)

/-- The function-valued properties of `Object.prototype`. -/
def protoFunctions : List String :=
  ["constructor", "__defineGetter__", "__defineSetter__", "hasOwnProperty",
   "__lookupGetter__", "__lookupSetter__", "isPrototypeOf",
   "propertyIsEnumerable", "toString", "valueOf", "toLocaleString"]

/-- Whether reading the key on an empty object finds a property of
`Object.prototype`. -/
def inherited (k : String) : Bool := k == "__proto__" || protoFunctions.contains k

/-- The value `(m[k] || 0) + 1`. An own number is incremented; an own string has
`"1"` appended; with no own property the read goes to the prototype, where an
inherited function or object is truthy and `+ 1` concatenates, and only an
absent property gives `0 + 1`. -/
def bump (m : CountObj) (k : String) : CountVal :=
  match m.lookup k with
  | some (.num n) => .num (n + 1)
  | some (.junk name ones) => .junk name (ones + 1)
  | none => if inherited k then .junk k 1 else .num 1

/-- Replaces the value of an existing own property, keeping its place. -/
def updateProp (k : String) (v : CountVal) : CountObj → CountObj
  | [] => []
  | e :: es => if e.1 == k then (k, v) :: es else e :: updateProp k v es

/-- The assignment `m[k] = v` of a primitive `v`: an own property is updated in
place; otherwise `__proto__` reaches the prototype setter, which ignores a
primitive, and any other key is created after the existing ones. -/
def setProp (m : CountObj) (k : String) (v : CountVal) : CountObj :=
  if (m.lookup k).isSome then updateProp k v m
  else if k == "__proto__" then m
  else m ++ [(k, v)]

/-- The counting loop `for (const r of rows) { const k = label(r);
m[k] = (m[k] || 0) + 1; }` over an initially empty object. -/
def countBy (label : Row → String) (rows : List Row) : CountObj :=
  rows.foldl (fun m r => setProp m (label r) (bump m (label r))) []

/-- The array index a property key denotes, if any: a canonical decimal numeral
(no leading zero) below `2^32 - 1`. -/
def arrayIndex (k : String) : Option Nat :=
  let cs := k.data
  if cs.isEmpty then none
  else if !cs.all Char.isDigit then none
  else if cs.head? == some '0' && 1 < cs.length then none
  else
    let n := cs.foldl (fun a c => 10 * a + (c.toNat - 48)) 0
    if n < 4294967295 then some n else none

/-- The pairs of `Object.entries(m)`: own properties whose key is an array index
first, in ascending numeric order, then the other keys in creation order. -/
def entries (m : CountObj) : List (String × CountVal) :=
  ((m.filterMap (fun e => (arrayIndex e.1).map (fun i => (i, e)))).insertionSort
      (fun a b => a.1 ≤ b.1)).map (fun p => p.2)
    ++ m.filter (fun e => (arrayIndex e.1).isNone)

/-- A chart datum `{ name, value }`. -/
structure Bucket where
  name : String
  value : CountVal
deriving DecidableEq, Repr

/-- The mapping `([name, value]) => ({ name, value })`. -/
def toBucket (e : String × CountVal) : Bucket := ⟨e.1, e.2⟩

/-- Conversion of a stored value to a number: `none` is `NaN`. -/
def CountVal.toNumber : CountVal → Option Int
  | .num n => some n
  | .junk _ _ => none

/-- The comparator `(a, b) => b.value - a.value`; `none` is `NaN`. -/
def byValueDesc (a b : Bucket) : Option Int :=
  match b.value.toNumber, a.value.toNumber with
  | some x, some y => some (x - y)
  | _, _ => none

/-- Whether a comparator result lets `a` stay before `b`: it does unless the
result is positive (`NaN` counts as zero). -/
def keepsOrder {α : Type} (cmp : α → α → Option Int) (a b : α) : Bool :=
  match cmp a b with
  | some v => decide (v ≤ 0)
  | none => true

/-- The call `xs.sort(cmp)` as a stable insertion sort driven by the comparator.
For a consistent comparator this is the order the language prescribes; for an
inconsistent one the language leaves the order open and this is one outcome. -/
def jsSort {α : Type} (cmp : α → α → Option Int) (xs : List α) : List α :=
  xs.insertionSort (fun a b => keepsOrder cmp a b = true)

/-- The call `xs.slice(start, stop)`: a negative bound counts from the end and
both bounds are clamped to the length. -/
def slice {α : Type} (xs : List α) (start stop : Int) : List α :=
  let len : Int := xs.length
  let k := if start < 0 then max (len + start) 0 else min start len
  let e := if stop < 0 then max (len + stop) 0 else min stop len
  (xs.drop k.toNat).take (e - k).toNat

/-- The list `aggByLocation`: counts per location label, sorted by descending
count, first ten. -/
def aggByLocation (rows : List Row) : List Bucket :=
  slice (jsSort byValueDesc ((entries (countBy locationOf rows)).map toBucket)) 0 10

/-- The list `aggByStatus`: counts per status label, in enumeration order. -/
def aggByStatus (rows : List Row) : List Bucket :=
  (entries (countBy statusOf rows)).map toBucket

/-- The top-users quick list: counts per user label, sorted by descending count,
first seven. -/
def topUsers (rows : List Row) : List Bucket :=
  slice (jsSort byValueDesc ((entries (countBy userOf rows)).map toBucket)) 0 7

/-! ## Search filter and paging -/

/-- The call `s.includes(q)`: `q` occurs in `s` as a contiguous run. -/
def includes (s q : String) : Bool := s.data.tails.any (fun t => q.data.isPrefixOf t)

/-- Lower-casing of the ASCII letters, the part of `toLowerCase` that acts on
ASCII text. -/
def asciiLower (s : String) : String := ⟨s.data.map Char.toLower⟩

/-- The list `filtered`: all rows when the query is empty, otherwise the rows
with some value whose lower-cased text includes the lower-cased query. The
runtime's `toLowerCase` is the parameter `lower`. -/
def filtered (lower : String → String) (rows : List Row) (query : String) : List Row :=
  if query = "" then rows
  else
    let q := lower query
    rows.filter (fun r => (r.map (fun e => e.2)).any (fun v => includes (lower v.text) q))

/-- The constant `pageSize`. -/
def pageSize : Int := 20

/-- The list `paged`: the slice of the filtered rows shown on a page. -/
def paged (rows : List Row) (page : Int) : List Row :=
  let start := (page - 1) * pageSize
  slice rows start (start + pageSize)

/-- What the listing tab shows for a query and a page: the page's rows, the
result count `filtered.length`, the page number and the page size. -/
structure QueryView where
  matchedRows : List Row
  totalMatched : Nat
  page : Int
  pageSize : Int

/-- The listing tab's view of the rows for a search term and a page. -/
def queryView (lower : String → String) (rows : List Row) (query : String)
    (page : Int) : QueryView :=
  ⟨paged (filtered lower rows query) page, (filtered lower rows query).length, page, pageSize⟩

/-- The number `Math.ceil(n / pageSize)` of pages needed for `n` rows. -/
def pagesNeeded (n : Nat) : Nat := (n + 19) / 20

/-! ## Dates -/

/-- The parts of the runtime's `Date` that the language leaves to the
implementation or the machine: the result of `Date.parse` on a string that is
not a valid `YYYY-MM-DD` date (`none` is `NaN`), and the offset of local time
from UTC, in milliseconds, at a given time. -/
structure DateEnv where
  parseOther : String → Option Int
  localTZA : Int → Int

/-- Milliseconds per day. -/
def msPerDay : Int := 86400000

/-- Whether a year of the proleptic Gregorian calendar is a leap year. -/
def isLeapYear (y : Int) : Bool := (y % 4 == 0 && y % 100 != 0) || y % 400 == 0

/-- The number of days of a month (1 to 12) of a year. -/
def daysInMonth (y : Int) (m : Nat) : Nat :=
  if m == 2 then (if isLeapYear y then 29 else 28)
  else if m == 4 || m == 6 || m == 9 || m == 11 then 30
  else 31

/-- The day number, counted from 1970-01-01, of a calendar date. -/
def daysFromCivil (y : Int) (m d : Nat) : Int :=
  let y1 : Int := if m ≤ 2 then y - 1 else y
  let era : Int := y1 / 400
  let yoe : Int := y1 - era * 400
  let mp : Int := if 2 < m then (m : Int) - 3 else (m : Int) + 9
  let doy : Int := (153 * mp + 2) / 5 + d - 1
  let doe : Int := yoe * 365 + yoe / 4 - yoe / 100 + doy
  era * 146097 + doe - 719468

/-- The zero-based month, 0 to 11, of a day number counted from 1970-01-01. -/
def monthFromDays (z0 : Int) : Nat :=
  let doe : Nat := ((z0 + 719468) % 146097).toNat
  let yoe : Nat := (doe - doe / 1460 + doe / 36524 - doe / 146096) / 365
  let doy : Nat := doe - (365 * yoe + yoe / 4 - yoe / 100)
  let mp : Nat := (5 * doy + 2) / 153
  if mp < 10 then mp + 2 else mp - 10

/-- The calendar year of a day number counted from 1970-01-01. -/
def yearFromDays (z0 : Int) : Int :=
  let z : Int := z0 + 719468
  let era : Int := z / 146097
  let doe : Nat := (z % 146097).toNat
  let yoe : Nat := (doe - doe / 1460 + doe / 36524 - doe / 146096) / 365
  (yoe : Int) + era * 400 + (if monthFromDays z0 < 2 then 1 else 0)

/-- The value of a decimal digit character. -/
def digitVal (c : Char) : Nat := c.toNat - 48

/-- The time value of a string of the form `YYYY-MM-DD` naming an existing
calendar date, which is midnight UTC of that date. -/
def parseIsoDate (s : String) : Option Int :=
  match s.data with
  | [y1, y2, y3, y4, s1, m1, m2, s2, d1, d2] =>
    if s1 == '-' && s2 == '-' && [y1, y2, y3, y4, m1, m2, d1, d2].all Char.isDigit then
      let y : Int := ((digitVal y1 * 1000 + digitVal y2 * 100 + digitVal y3 * 10 + digitVal y4 : Nat) : Int)
      let m : Nat := digitVal m1 * 10 + digitVal m2
      let d : Nat := digitVal d1 * 10 + digitVal d2
      if 1 ≤ m ∧ m ≤ 12 ∧ 1 ≤ d ∧ d ≤ daysInMonth y m then
        some (daysFromCivil y m d * msPerDay)
      else none
    else none
  | _ => none

/-- The call `Date.parse(s)`; `none` is `NaN`. -/
def dateParse (env : DateEnv) (s : String) : Option Int :=
  match parseIsoDate s with
  | some t => some t
  | none => env.parseOther s

/-- The clipping of a time value to the range a `Date` can hold. -/
def timeClip (t : Int) : Option Int :=
  if t.natAbs ≤ 8640000000000000 then some t else none

/-- The time value of `new Date(v)`; `none` is an invalid date, the case
`isNaN(d)`. A string is parsed, a number is a count of milliseconds. -/
def newDate (env : DateEnv) : Cell → Option Int
  | .str s => (dateParse env s).bind timeClip
  | .num n => timeClip n
  | .empty => some 0

/-- The local time of a time value. -/
def localTime (env : DateEnv) (t : Int) : Int := t + env.localTZA t

/-- The call `d.getFullYear()` on a valid date. -/
def getFullYear (env : DateEnv) (t : Int) : Int := yearFromDays (localTime env t / msPerDay)

/-- The call `d.getMonth()` on a valid date: the zero-based month. -/
def getMonth (env : DateEnv) (t : Int) : Nat := monthFromDays (localTime env t / msPerDay)

/-- The call `s.padStart(n, c)` with a one-character filler. -/
def padStart (s : String) (n : Nat) (c : Char) : String :=
  ⟨List.replicate (n - s.length) c⟩ ++ s

/-- The key built from a year and a zero-based month by the template
`${year}-${String(month + 1).padStart(2, "0")}`. -/
def monthKey (y : Int) (m : Nat) : String :=
  toString y ++ "-" ++ padStart (toString (m + 1)) 2 '0'

/-- The period key of a valid date. -/
def periodKey (env : DateEnv) (t : Int) : String :=
  monthKey (getFullYear env t) (getMonth env t)

/-- The call `a.localeCompare(b)`, as the order of code points, which is how a
collation orders strings made of digits and hyphens. -/
def localeCompare (a b : String) : Int :=
  if a.data < b.data then -1 else if a = b then 0 else 1

/-- The comparator `(a, b) => a.name.localeCompare(b.name)`. -/
def byName (a b : Bucket) : Option Int := some (localeCompare a.name b.name)

/-- One turn of the loop of `timeSeriesByPurchase`: a row whose date chain is
falsy, or whose date is invalid, is skipped (`continue`); otherwise the counter
of its period key is incremented. -/
def timeSeriesStep (env : DateEnv) (m : CountObj) (r : Row) : CountObj :=
  match firstTruthy r purchaseKeys with
  | none => m
  | some dStr =>
    match newDate env dStr with
    | none => m
    | some t => setProp m (periodKey env t) (bump m (periodKey env t))

/-- The list `timeSeriesByPurchase`: counts per year-month of the purchase date,
sorted by key. -/
def timeSeriesByPurchase (env : DateEnv) (rows : List Row) : List Bucket :=
  jsSort byName ((entries (rows.foldl (timeSeriesStep env) [])).map toBucket)

/-- A runtime in UTC that parses nothing beyond the `YYYY-MM-DD` form. -/
def utcEnv : DateEnv := ⟨fun _ => none, fun _ => 0⟩

/-! ## Reference notions used to state the properties -/

/-- The distinct labels of a list in first-seen order. -/
def firstSeen : List String → List String
  | [] => []
  | x :: xs => x :: (firstSeen xs).filter (fun y => y != x)

/-- One turn of a counting loop: `m[k] = (m[k] || 0) + 1`. -/
def stepCount (m : CountObj) (k : String) : CountObj := setProp m k (bump m k)

/-- The counting loop run over a list of labels. -/
def countLabels (ks : List String) : CountObj := ks.foldl stepCount []

/-- The own keys of the counter object, in creation order. -/
def keysOf (m : CountObj) : List String := m.map (fun e => e.1)

/-- The count a bucket shows, when its value is a number. -/
def Bucket.count (b : Bucket) : Nat :=
  match b.value with
  | .num n => n
  | .junk _ _ => 0

/-- The enumeration order of a list of distinct keys: the array-index keys in
ascending numeric order, then the other keys in the given order. -/
def enumOrder (ks : List String) : List String :=
  (ks.filter (fun k => (arrayIndex k).isSome)).insertionSort
      (fun a b => (arrayIndex a).getD 0 ≤ (arrayIndex b).getD 0)
    ++ ks.filter (fun k => (arrayIndex k).isNone)

/-- The bucket of a label with its number of occurrences among the labels. -/
def countedBucket (ks : List String) (k : String) : Bucket := ⟨k, .num (ks.count k)⟩

/-- The distinct labels in first-seen order, each with its number of occurrences. -/
def firstSeenCounts (ks : List String) : List Bucket := (firstSeen ks).map (countedBucket ks)

/-- The distinct labels in enumeration order, each with its number of occurrences. -/
def enumCounts (ks : List String) : List Bucket := (enumOrder (firstSeen ks)).map (countedBucket ks)

/-- The stable sort of buckets by descending count. -/
def stableDesc (bs : List Bucket) : List Bucket :=
  bs.insertionSort (fun a b => b.count ≤ a.count)

/-- Whether the row has a truthy value under the key. -/
def truthyAt (r : Row) (k : String) : Bool :=
  match r.lookup k with
  | some c => c.truthy
  | none => false

/-- The text of the value the row has under the key. -/
def textAt (r : Row) (k : String) : String :=
  match r.lookup k with
  | some c => c.text
  | none => ""

/-- The text of a cell taken as it is: a string is itself, a number is its
decimal text and an empty cell is the empty string. -/
def Cell.plainText : Cell → String
  | .str s => s
  | .num n => toString n
  | .empty => ""

/-- The value of the first key of a priority list that is present in the row,
whatever the value. -/
def firstPresent (r : Row) : List String → Option Cell
  | [] => none
  | k :: ks =>
    match r.lookup k with
    | some c => some c
    | none => firstPresent r ks

/-- Resolution in which the first present key wins whether or not its value is
empty. -/
def resolvePresent (keys : List String) (fallback : String) (r : Row) : String :=
  match firstPresent r keys with
  | some c => c.plainText
  | none => fallback

/-- The first `n` buckets of the distinct labels in first-seen order with their
counts, sorted stably by descending count. -/
def firstSeenTop (n : Nat) (labels : List String) : List Bucket :=
  (stableDesc (firstSeenCounts labels)).take n

/-- The example rows of the status scenario: statuses Active, Active, Retired. -/
def statusExampleRows : List Row :=
  [[("status", .str "Active")], [("status", .str "Active")], [("status", .str "Retired")]]

/-- Rows whose statuses are Retired, Active, Active. -/
def statusUnsortedRows : List Row :=
  [[("status", .str "Retired")], [("status", .str "Active")], [("status", .str "Active")]]

/-- Rows whose locations are `b` and then `1`. -/
def locationIndexRows : List Row :=
  [[("location", .str "b")], [("location", .str "1")]]

/-- A row with an empty `location` and `Location` set to `HQ`. -/
def emptyLocationRow : Row := [("location", .str ""), ("Location", .str "HQ")]

/-- The time value of the purchase date of a row, if the row has one: the first
truthy value of the priority list, made into a valid date. -/
def rowTime (env : DateEnv) (r : Row) : Option Int :=
  (firstTruthy r purchaseKeys).bind (newDate env)

/-- The period key under which a row is counted, if it is counted. -/
def rowKey (env : DateEnv) (r : Row) : Option String :=
  (rowTime env r).map (periodKey env)

/-- The example rows of the time-series scenario. -/
def purchaseExampleRows : List Row :=
  [[("purchase_date", .str "2024-03-15")], [("PurchaseDate", .str "not-a-date")]]

/-- A row with an empty `purchase_date` and a dated `PurchaseDate`. -/
def emptyPurchaseRow : Row :=
  [("purchase_date", .str ""), ("PurchaseDate", .str "2024-03-15")]

/-- Whether the value of the first present purchase-date key of a row makes a
valid date. -/
def presentDateParses (env : DateEnv) (r : Row) : Bool :=
  match firstPresent r purchaseKeys with
  | some c => (newDate env c).isSome
  | none => false

/-- Whether a string has the form `YYYY-MM`: four digits, a hyphen, two digits. -/
def isYearMonthKey (s : String) : Bool :=
  match s.data with
  | [a, b, c, d, h, e, f] => [a, b, c, d, e, f].all Char.isDigit && h == '-'
  | _ => false

/-- Rows dated March 2024 and December 999. -/
def oldYearRows : List Row :=
  [[("purchase_date", .str "2024-03-15")], [("purchase_date", .str "0999-12-31")]]

/-- Whether the purchase date of a row, if it has a valid one, has a local year
of four digits. -/
def fourDigitYear (env : DateEnv) (r : Row) : Bool :=
  match rowTime env r with
  | some t => decide (1000 ≤ getFullYear env t ∧ getFullYear env t ≤ 9999)
  | none => true

/-! ## The listing state and the location metric -/

/-- The state of the component that the listing tab reads: the rows, the search
term and the page number. -/
structure ListingState where
  rows : List Row
  query : String
  page : Int
deriving DecidableEq

/-- The initial state: `useState([])`, `useState("")`, `useState(1)`. -/
def initialState : ListingState := ⟨[], "", 1⟩

/-- The events that change the listing state: the two page buttons, a change of
the search input, and a replacement of the rows (reload, upload, deletion). -/
inductive Action where
  | anterior
  | siguiente
  | search (q : String)
  | setRows (rows : List Row)

/-- The state after an event: `setPage((p) => Math.max(1, p - 1))`,
`setPage((p) => p + 1)`, `setQuery(e.target.value); setPage(1)`, and
`setRows(...)`, which leaves the page number as it is. -/
def step (s : ListingState) : Action → ListingState
  | .anterior => ⟨s.rows, s.query, max 1 (s.page - 1)⟩
  | .siguiente => ⟨s.rows, s.query, s.page + 1⟩
  | .search q => ⟨s.rows, q, 1⟩
  | .setRows rows => ⟨rows, s.query, s.page⟩

/-- The state reached from the initial state by a sequence of events. -/
def run (actions : List Action) : ListingState := actions.foldl step initialState

/-- The page count shown next to the page number,
`Math.max(1, Math.ceil(filtered.length / pageSize))`. -/
def pageCount (lower : String → String) (s : ListingState) : Int :=
  max 1 (pagesNeeded (filtered lower s.rows s.query).length : Int)

/-- The metric "Ubicaciones registradas", `aggByLocation.length`. -/
def ubicacionesRegistradas (rows : List Row) : Nat := (aggByLocation rows).length

/-- The number of distinct resolved location labels among the rows. -/
def distinctLocations (rows : List Row) : Nat := ((rows.map locationOf).dedup).length

/-! ## Dates read in UTC -/

/-- The period key of the year and month of a time value read in UTC. -/
def utcKey (t : Int) : String :=
  monthKey (yearFromDays (t / msPerDay)) (monthFromDays (t / msPerDay))

/-- The year-month key of the purchase date of a row, read in UTC, if the row
has a valid purchase date. -/
def dateKey (env : DateEnv) (r : Row) : Option String :=
  (rowTime env r).map utcKey

/-- Whether local time puts the purchase date of a row, if it has a valid one,
in the same year and month as UTC does. -/
def sameMonthAsUtc (env : DateEnv) (r : Row) : Bool :=
  match rowTime env r with
  | some t => decide (getFullYear env t = yearFromDays (t / msPerDay)
      ∧ getMonth env t = monthFromDays (t / msPerDay))
  | none => true

/-- Rows dated 1 March 2024, 15 March 2024 and 31 December 2023, and a row
whose date does not parse. -/
def twoMonthRows : List Row :=
  [[("purchase_date", .str "2024-03-01")], [("purchaseDate", .str "2024-03-15")],
   [("PurchaseDate", .str "not-a-date")], [("purchase date", .str "2023-12-31")]]

/-- Rows dated 15 March 2024, 2 November 2023 and 20 March 2024. -/
def threeDateRows : List Row :=
  [[("purchase_date", .str "2024-03-15")], [("PurchaseDate", .str "2023-11-02")],
   [("purchase_date", .str "2024-03-20")]]

/-! ## Lemmas -/

theorem countBy_eq_countLabels (label : Row → String) (rows : List Row) :
    countBy label rows = countLabels (rows.map label) := by
  simp [countBy, countLabels, List.foldl_map, stepCount]

theorem lookup_isSome_iff (m : CountObj) (k : String) :
    (m.lookup k).isSome = true ↔ k ∈ keysOf m := by
  induction m with
  | nil => simp [keysOf]
  | cons e es ih =>
    obtain ⟨a, b⟩ := e
    by_cases h : k = a
    · subst h; simp [List.lookup, keysOf]
    · have h2 : (k == a) = false := by simpa using h
      simp only [List.lookup, h2]
      rw [ih]
      simp [keysOf, h]

theorem lookup_eq_none_iff (m : CountObj) (k : String) :
    m.lookup k = none ↔ k ∉ keysOf m := by
  rw [← lookup_isSome_iff]
  cases m.lookup k <;> simp

theorem keysOf_updateProp (k : String) (v : CountVal) (m : CountObj) :
    keysOf (updateProp k v m) = keysOf m := by
  induction m with
  | nil => rfl
  | cons e es ih =>
    by_cases h : e.1 = k
    · simp [updateProp, h, keysOf]
    · have h2 : (e.1 == k) = false := by simpa using h
      simp only [keysOf] at ih
      simp [updateProp, h2, keysOf, ih]

theorem lookup_updateProp_self (k : String) (v : CountVal) (m : CountObj)
    (h : k ∈ keysOf m) : (updateProp k v m).lookup k = some v := by
  induction m with
  | nil => simp [keysOf] at h
  | cons e es ih =>
    obtain ⟨a, b⟩ := e
    by_cases hk : a = k
    · subst hk; simp [updateProp, List.lookup]
    · have h2 : (a == k) = false := by simpa using hk
      have h3 : (k == a) = false := by simpa using (fun h => hk h.symm)
      have h4 : k ∈ keysOf es := by
        simp [keysOf] at h ⊢
        rcases h with h | h
        · exact absurd h.symm hk
        · exact h
      simp only [updateProp, h2, List.lookup, h3]
      exact ih h4

theorem lookup_updateProp_ne (k j : String) (v : CountVal) (m : CountObj)
    (h : j ≠ k) : (updateProp k v m).lookup j = m.lookup j := by
  induction m with
  | nil => rfl
  | cons e es ih =>
    obtain ⟨a, b⟩ := e
    by_cases hk : a = k
    · subst hk
      have h3 : (j == a) = false := by simpa using h
      simp [updateProp, List.lookup, h3]
    · have h2 : (a == k) = false := by simpa using hk
      simp only [updateProp, h2, List.lookup]
      cases hj : (j == a) <;> simp [ih]

theorem lookup_append_single (m : CountObj) (k j : String) (v : CountVal) :
    (m ++ [(k, v)]).lookup j =
      match m.lookup j with
      | some w => some w
      | none => if j = k then some v else none := by
  induction m with
  | nil =>
    by_cases h : j = k
    · subst h; simp [List.lookup]
    · have h3 : (j == k) = false := by simpa using h
      simp [List.lookup, h3, h]
  | cons e es ih =>
    obtain ⟨a, b⟩ := e
    cases hj : (j == a)
    · simp only [List.cons_append, List.lookup, hj]; exact ih
    · simp [List.lookup, hj]

theorem keysOf_setProp (m : CountObj) (k : String) (v : CountVal) :
    keysOf (setProp m k v) =
      if k ∈ keysOf m then keysOf m
      else if k = "__proto__" then keysOf m else keysOf m ++ [k] := by
  unfold setProp
  by_cases h : k ∈ keysOf m
  · have := (lookup_isSome_iff m k).2 h
    rw [if_pos this, if_pos h, keysOf_updateProp]
  · have h1 : ¬ (m.lookup k).isSome = true := (lookup_isSome_iff m k).not.2 h
    rw [if_neg h1, if_neg h]
    by_cases hp : k = "__proto__"
    · have hp2 : (k == "__proto__") = true := by simpa using hp
      rw [if_pos hp2, if_pos hp]
    · have hp2 : ¬ (k == "__proto__") = true := by simpa using hp
      rw [if_neg hp2, if_neg hp]
      simp [keysOf]

theorem lookup_setProp_ne (m : CountObj) (k j : String) (v : CountVal) (h : j ≠ k) :
    (setProp m k v).lookup j = m.lookup j := by
  unfold setProp
  split
  · exact lookup_updateProp_ne k j v m h
  · split
    · rfl
    · rw [lookup_append_single]
      cases m.lookup j <;> simp [h]

theorem lookup_setProp_self (m : CountObj) (k : String) (v : CountVal)
    (h : k ≠ "__proto__") : (setProp m k v).lookup k = some v := by
  unfold setProp
  split
  · rename_i h1
    exact lookup_updateProp_self k v m ((lookup_isSome_iff m k).1 h1)
  · rename_i h1
    have hp2 : ¬ (k == "__proto__") = true := by simpa using h
    rw [if_neg hp2]
    rw [lookup_append_single]
    have : m.lookup k = none := by
      cases hm : m.lookup k
      · rfl
      · simp [hm] at h1
    simp [this]

theorem mem_firstSeen (l : List String) (y : String) : y ∈ firstSeen l ↔ y ∈ l := by
  induction l with
  | nil => simp [firstSeen]
  | cons a l ih =>
    simp only [firstSeen, List.mem_cons, List.mem_filter, ih]
    by_cases h : y = a
    · simp [h]
    · simp [h]

theorem nodup_firstSeen (l : List String) : (firstSeen l).Nodup := by
  induction l with
  | nil => simp [firstSeen]
  | cons a l ih =>
    simp only [firstSeen, List.nodup_cons]
    refine ⟨?_, ih.filter _⟩
    simp [List.mem_filter]

theorem firstSeen_append_single (l : List String) (x : String) :
    firstSeen (l ++ [x]) = if x ∈ l then firstSeen l else firstSeen l ++ [x] := by
  induction l with
  | nil => simp [firstSeen]
  | cons a l ih =>
    show firstSeen (a :: (l ++ [x])) = _
    simp only [firstSeen]
    rw [ih]
    by_cases h : x ∈ l
    · simp [h]
    · by_cases hxa : x = a
      · subst hxa; simp [h, List.filter_append]
      · simp [h, hxa, List.filter_append]

theorem countLabels_append_single (ks : List String) (x : String) :
    countLabels (ks ++ [x]) = stepCount (countLabels ks) x := by
  simp [countLabels, List.foldl_append]

/-- The own keys of the counter after the loop: the labels other than
`__proto__`, in first-seen order. -/
theorem keysOf_countLabels (ks : List String) :
    keysOf (countLabels ks) = firstSeen (ks.filter (fun k => k != "__proto__")) := by
  induction ks using List.reverseRecOn with
  | nil => rfl
  | append_singleton ks x ih =>
    rw [countLabels_append_single, stepCount, keysOf_setProp, ih, List.filter_append]
    by_cases hp : x = "__proto__"
    · subst hp; simp
    · have hp2 : (x != "__proto__") = true := by simpa using hp
      simp only [List.filter_cons, hp2, if_true, List.filter_nil, firstSeen_append_single,
        mem_firstSeen, if_neg hp]

theorem nodup_keysOf_countLabels (ks : List String) : (keysOf (countLabels ks)).Nodup := by
  rw [keysOf_countLabels]; exact nodup_firstSeen _

theorem inherited_false_ne_proto {k : String} (h : inherited k = false) : k ≠ "__proto__" := by
  intro hk; subst hk; simp [inherited] at h

/-- The counter of a label that is not a property of `Object.prototype` is the
number of times the label occurred. -/
theorem lookup_countLabels (ks : List String) (k : String) (hk : inherited k = false) :
    (countLabels ks).lookup k = if ks.count k = 0 then none else some (.num (ks.count k)) := by
  induction ks using List.reverseRecOn with
  | nil => rfl
  | append_singleton ks x ih =>
    rw [countLabels_append_single, stepCount]
    by_cases hx : x = k
    · subst hx
      rw [lookup_setProp_self _ _ _ (inherited_false_ne_proto hk)]
      simp only [bump, ih, List.count_append, List.count_singleton, beq_self_eq_true, if_true]
      by_cases h0 : List.count x ks = 0
      · simp [h0, hk]
      · simp [h0]
    · rw [lookup_setProp_ne _ _ _ _ (fun h => hx h.symm), ih]
      have : (x == k) = false := by simpa using hx
      simp [List.count_append, List.count_singleton, this]

theorem lookup_of_mem (m : CountObj) (h : (keysOf m).Nodup) (e : String × CountVal)
    (he : e ∈ m) : m.lookup e.1 = some e.2 := by
  induction m with
  | nil => simp at he
  | cons a m ih =>
    obtain ⟨ak, av⟩ := a
    simp only [keysOf, List.map_cons, List.nodup_cons] at h
    rcases List.mem_cons.1 he with h1 | h1
    · subst h1; simp [List.lookup]
    · have hne : e.1 ≠ ak := by
        intro hh
        apply h.1
        rw [← hh]
        exact List.mem_map_of_mem (fun e => e.1) h1
      have : (e.1 == ak) = false := by simpa using hne
      simp only [List.lookup, this]
      exact ih h.2 h1

theorem mem_of_lookup (m : CountObj) (k : String) (v : CountVal)
    (h : m.lookup k = some v) : (k, v) ∈ m := by
  induction m with
  | nil => simp [List.lookup] at h
  | cons a m ih =>
    obtain ⟨ak, av⟩ := a
    by_cases hk : k = ak
    · subst hk; simp [List.lookup] at h; simp [h]
    · have : (k == ak) = false := by simpa using hk
      simp only [List.lookup, this] at h
      exact List.mem_cons_of_mem _ (ih h)

/-- Every entry of the counter, for labels none of which is a property of
`Object.prototype`, is a positive number: the number of occurrences of its key. -/
theorem mem_countLabels (ks : List String) (hks : ∀ k ∈ ks, inherited k = false)
    (e : String × CountVal) (he : e ∈ countLabels ks) :
    e.2 = .num (ks.count e.1) ∧ 0 < ks.count e.1 := by
  have hmem : e.1 ∈ ks := by
    have h1 : e.1 ∈ keysOf (countLabels ks) := List.mem_map_of_mem (fun e => e.1) he
    rw [keysOf_countLabels, mem_firstSeen] at h1
    exact (List.mem_filter.1 h1).1
  have h2 := lookup_of_mem _ (nodup_keysOf_countLabels ks) e he
  rw [lookup_countLabels ks e.1 (hks _ hmem)] at h2
  have hpos : 0 < ks.count e.1 := List.count_pos_iff.2 hmem
  have hne : ks.count e.1 ≠ 0 := by omega
  simp only [hne, if_false] at h2
  exact ⟨(Option.some.inj h2).symm, hpos⟩

theorem entries_perm (m : CountObj) : (entries m).Perm m := by
  unfold entries
  have h1 : ((m.filterMap (fun e => (arrayIndex e.1).map (fun i => (i, e)))).insertionSort
      (fun a b => a.1 ≤ b.1)).map (fun p => p.2) = 
      (((m.filterMap (fun e => (arrayIndex e.1).map (fun i => (i, e)))).insertionSort
      (fun a b => a.1 ≤ b.1)).map (fun p => p.2)) := rfl
  have h2 : (m.filterMap (fun e => (arrayIndex e.1).map (fun i => (i, e)))).map (fun p => p.2)
      = m.filter (fun e => (arrayIndex e.1).isSome) := by
    induction m with
    | nil => rfl
    | cons e es ih =>
      cases h : arrayIndex e.1 with
      | none => simp [List.filterMap_cons, h, List.filter_cons, ih]
      | some i => simp [List.filterMap_cons, h, List.filter_cons, ih]
  have h3 := ((List.perm_insertionSort (fun a b : Nat × String × CountVal => a.1 ≤ b.1)
    (m.filterMap (fun e => (arrayIndex e.1).map (fun i => (i, e))))).map (fun p => p.2))
  rw [h2] at h3
  have h4 : (m.filter (fun e => (arrayIndex e.1).isNone)) = m.filter (fun e => !(arrayIndex e.1).isSome) := by
    congr 1; funext e; cases arrayIndex e.1 <;> rfl
  rw [h4]
  exact (h3.append_right _).trans (List.filter_append_perm _ m)

theorem entries_map_key (F : String → String × CountVal) (hF : ∀ k, (F k).1 = k)
    (L : List String) : entries (L.map F) = (enumOrder L).map F := by
  unfold entries enumOrder
  rw [List.map_append]
  congr 1
  · have h2 : (L.map F).filterMap (fun e => (arrayIndex e.1).map (fun i => (i, e)))
        = (L.filter (fun k => (arrayIndex k).isSome)).map
            (fun k => ((arrayIndex k).getD 0, F k)) := by
      induction L with
      | nil => rfl
      | cons k ks ih =>
        cases h : arrayIndex k with
        | none => simp [List.filterMap_cons, hF, h, List.filter_cons, ih]
        | some i => simp [List.filterMap_cons, hF, h, List.filter_cons, ih]
    rw [h2]
    rw [← List.map_insertionSort (fun a b : String => (arrayIndex a).getD 0 ≤ (arrayIndex b).getD 0)
      (fun a b : Nat × String × CountVal => a.1 ≤ b.1)
      (fun k => ((arrayIndex k).getD 0, F k)) _ (fun _ _ _ _ => Iff.rfl)]
    rw [List.map_map]
    rfl
  · rw [List.filter_map]
    have : ((fun e : String × CountVal => (arrayIndex e.1).isNone) ∘ F)
        = (fun k => (arrayIndex k).isNone) := by
      funext k
      simp [hF]
    rw [this]

theorem enumOrder_perm (L : List String) : (enumOrder L).Perm L := by
  unfold enumOrder
  have h4 : (L.filter (fun k => (arrayIndex k).isNone)) = L.filter (fun k => !(arrayIndex k).isSome) := by
    congr 1; funext e; cases arrayIndex e <;> rfl
  rw [h4]
  exact ((List.perm_insertionSort _ _).append_right _).trans (List.filter_append_perm _ L)

theorem enumOrder_eq_self (L : List String) (h : ∀ k ∈ L, arrayIndex k = none) :
    enumOrder L = L := by
  unfold enumOrder
  have h1 : L.filter (fun k => (arrayIndex k).isSome) = [] := by
    rw [List.filter_eq_nil_iff]; intro k hk; simp [h k hk]
  have h2 : L.filter (fun k => (arrayIndex k).isNone) = L := by
    rw [List.filter_eq_self]; intro k hk; simp [h k hk]
  rw [h1, h2]; rfl

/-- For labels none of which is a property of `Object.prototype`, the counter
holds, in creation order, each distinct label with its number of occurrences. -/
theorem countLabels_eq (ks : List String) (hks : ∀ k ∈ ks, inherited k = false) :
    countLabels ks = (firstSeen ks).map (fun k => (k, CountVal.num (ks.count k))) := by
  have hk : keysOf (countLabels ks) = firstSeen ks := by
    rw [keysOf_countLabels]
    congr 1
    rw [List.filter_eq_self]
    intro k hk
    have := inherited_false_ne_proto (hks k hk)
    simpa using this
  rw [← hk, keysOf, List.map_map]
  symm
  conv_rhs => rw [← List.map_id (countLabels ks)]
  apply List.map_congr_left
  intro e he
  have := (mem_countLabels ks hks e he).1
  simp only [Function.comp, id]
  rw [← this]

theorem entries_countLabels (ks : List String) (hks : ∀ k ∈ ks, inherited k = false) :
    (entries (countLabels ks)).map toBucket = enumCounts ks := by
  rw [countLabels_eq ks hks, entries_map_key _ (fun _ => rfl), List.map_map]
  rfl

theorem jsSort_byValueDesc_eq (bs : List Bucket) (h : ∀ b ∈ bs, ∃ n, b.value = .num n) :
    jsSort byValueDesc bs = stableDesc bs := by
  have := List.map_insertionSort (fun a b : Bucket => keepsOrder byValueDesc a b = true)
    (fun a b : Bucket => b.count ≤ a.count) id bs (by
      intro a ha b hb
      obtain ⟨x, hx⟩ := h a ha
      obtain ⟨y, hy⟩ := h b hb
      simp only [keepsOrder, byValueDesc, hx, hy, CountVal.toNumber, Bucket.count, id]
      simp only [decide_eq_true_eq]
      omega)
  simpa [jsSort, stableDesc] using this

theorem stableDesc_perm (bs : List Bucket) : (stableDesc bs).Perm bs :=
  List.perm_insertionSort _ _

theorem stableDesc_sorted (bs : List Bucket) :
    (stableDesc bs).Pairwise (fun a b => b.count ≤ a.count) := by
  haveI : IsTotal Bucket (fun a b => b.count ≤ a.count) := ⟨fun a b => Nat.le_total _ _⟩
  haveI : IsTrans Bucket (fun a b => b.count ≤ a.count) := ⟨fun _ _ _ h1 h2 => Nat.le_trans h2 h1⟩
  exact List.sorted_insertionSort (fun a b : Bucket => b.count ≤ a.count) bs

/-- Stability: buckets of equal count keep their relative order. -/
theorem stableDesc_stable (bs : List Bucket) (c : Nat) :
    (stableDesc bs).filter (fun b => b.count == c) = bs.filter (fun b => b.count == c) := by
  have hsub : List.Sublist (bs.filter (fun b => b.count == c)) (stableDesc bs) := by
    apply List.sublist_insertionSort
    · apply List.pairwise_of_forall_mem_list
      intro a ha b hb
      have h1 := (List.mem_filter.1 ha).2
      have h2 := (List.mem_filter.1 hb).2
      simp only [beq_iff_eq] at h1 h2
      omega
    · exact List.filter_sublist _
  have h2 := hsub.filter (fun b => b.count == c)
  rw [List.filter_filter] at h2
  simp only [Bool.and_self] at h2
  have hlen := ((stableDesc_perm bs).filter (fun b => b.count == c)).length_eq
  exact (h2.eq_of_length hlen.symm).symm

theorem slice_zero {α : Type} (xs : List α) (n : Nat) : slice xs 0 (n : Int) = xs.take n := by
  unfold slice
  have h1 : ¬ ((0 : Int) < 0) := by omega
  have h2 : ¬ ((n : Int) < 0) := by omega
  simp only [h1, h2, if_false]
  have h3 : (min (0 : Int) (xs.length : Int)).toNat = 0 := by omega
  rw [h3, List.drop_zero]
  by_cases h : n ≤ xs.length
  · have : (min (n : Int) (xs.length : Int) - min 0 (xs.length : Int)).toNat = n := by omega
    rw [this]
  · have : (min (n : Int) (xs.length : Int) - min 0 (xs.length : Int)).toNat = xs.length := by omega
    rw [this, List.take_length, List.take_of_length_le (by omega)]

/-- The sorted and truncated aggregation, for labels none of which is a property
of `Object.prototype`. -/
theorem top_eq (label : Row → String) (rows : List Row) (n : Nat)
    (h : ∀ r ∈ rows, inherited (label r) = false) :
    slice (jsSort byValueDesc ((entries (countBy label rows)).map toBucket)) 0 (n : Int)
      = (stableDesc (enumCounts (rows.map label))).take n := by
  have hks : ∀ k ∈ rows.map label, inherited k = false := by
    intro k hk
    obtain ⟨r, hr, rfl⟩ := List.mem_map.1 hk
    exact h r hr
  rw [slice_zero, countBy_eq_countLabels, entries_countLabels _ hks, jsSort_byValueDesc_eq]
  intro b hb
  simp only [enumCounts, List.mem_map] at hb
  obtain ⟨k, _, rfl⟩ := hb
  exact ⟨_, rfl⟩

theorem take_drop_sorted (bs : List Bucket) (n : Nat)
    (h : bs.Pairwise (fun a b => b.count ≤ a.count)) :
    ∀ x ∈ bs.drop n, ∀ y ∈ bs.take n, x.count ≤ y.count := by
  intro x hx y hy
  have := h
  rw [← List.take_append_drop n bs, List.pairwise_append] at this
  exact this.2.2 y hy x hx

theorem paged_eq (rows : List Row) (p : Int) (hp : 1 ≤ p) :
    paged rows p = (rows.drop (20 * (p - 1).toNat)).take 20 := by
  unfold paged slice pageSize
  have h1 : ¬ ((p - 1) * 20 < 0) := by omega
  have h2 : ¬ ((p - 1) * 20 + 20 < 0) := by omega
  simp only [h1, h2, if_false]
  by_cases h : 20 * (p - 1).toNat ≤ rows.length
  · have e1 : (min ((p - 1) * 20) (rows.length : Int)).toNat = 20 * (p - 1).toNat := by omega
    rw [e1]
    by_cases h3 : 20 * (p - 1).toNat + 20 ≤ rows.length
    · have e2 : (min ((p - 1) * 20 + 20) (rows.length : Int)
          - min ((p - 1) * 20) (rows.length : Int)).toNat = 20 := by omega
      rw [e2]
    · have e2 : (min ((p - 1) * 20 + 20) (rows.length : Int)
          - min ((p - 1) * 20) (rows.length : Int)).toNat
          = rows.length - 20 * (p - 1).toNat := by omega
      rw [e2]
      have hl : (rows.drop (20 * (p - 1).toNat)).length = rows.length - 20 * (p - 1).toNat :=
        List.length_drop _ _
      rw [List.take_of_length_le (by omega), List.take_of_length_le (by omega)]
  · have e1 : (min ((p - 1) * 20) (rows.length : Int)).toNat = rows.length := by omega
    rw [e1, List.drop_length, List.take_nil, List.drop_of_length_le (by omega), List.take_nil]

theorem flatten_chunks (rows : List Row) (k : Nat) :
    ((List.range k).map (fun i => (rows.drop (20 * i)).take 20)).flatten = rows.take (20 * k) := by
  induction k with
  | zero => simp
  | succ k ih =>
    rw [List.range_succ, List.map_append, List.flatten_append, ih]
    simp only [List.map_cons, List.map_nil, List.flatten_cons, List.flatten_nil, List.append_nil]
    rw [Nat.mul_succ, List.take_add]

theorem resolve_eq_find (keys : List String) (fallback : String) (r : Row) :
    resolve keys fallback r =
      match keys.find? (truthyAt r) with
      | some k => textAt r k
      | none => fallback := by
  unfold resolve
  induction keys with
  | nil => rfl
  | cons k ks ih =>
    simp only [firstTruthy, List.find?_cons, truthyAt]
    cases h : r.lookup k with
    | none => simpa using ih
    | some c =>
      by_cases hc : c.truthy = true
      · simp only [hc, if_true]
        simp [textAt, h]
      · have hc2 : c.truthy = false := by simpa using hc
        simp only [hc2]
        simpa using ih

theorem firstTruthy_of_absent (r : Row) (keys : List String)
    (h : ∀ k ∈ keys, r.lookup k = none) : firstTruthy r keys = none := by
  induction keys with
  | nil => rfl
  | cons k ks ih =>
    simp only [firstTruthy, h k (List.mem_cons_self _ _)]
    exact ih (fun j hj => h j (List.mem_cons_of_mem _ hj))

theorem resolve_of_absent (keys : List String) (fallback : String) (r : Row)
    (h : ∀ k ∈ keys, r.lookup k = none) : resolve keys fallback r = fallback := by
  simp [resolve, firstTruthy_of_absent r keys h]

/-- A row resolving to a label that is not a property of `Object.prototype` is
counted: the counter of that label is the positive number of rows resolving to
it, and the bucket is in the enumerated and in the sorted bucket list. -/
theorem label_counted (label : Row → String) (rows : List Row) (r : Row) (hr : r ∈ rows)
    (hk : inherited (label r) = false) :
    0 < (rows.map label).count (label r)
    ∧ (⟨label r, .num ((rows.map label).count (label r))⟩ : Bucket)
        ∈ (entries (countBy label rows)).map toBucket
    ∧ (⟨label r, .num ((rows.map label).count (label r))⟩ : Bucket)
        ∈ jsSort byValueDesc ((entries (countBy label rows)).map toBucket) := by
  have hpos : 0 < (rows.map label).count (label r) :=
    List.count_pos_iff.2 (List.mem_map_of_mem label hr)
  have hl := lookup_countLabels (rows.map label) (label r) hk
  have hne : (rows.map label).count (label r) ≠ 0 := by omega
  simp only [hne, if_false] at hl
  have hm := mem_of_lookup _ _ _ hl
  rw [← countBy_eq_countLabels] at hm
  have h1 : (⟨label r, .num ((rows.map label).count (label r))⟩ : Bucket)
      ∈ (entries (countBy label rows)).map toBucket :=
    List.mem_map.2 ⟨_, (entries_perm _).mem_iff.2 hm, rfl⟩
  exact ⟨hpos, h1, (List.perm_insertionSort _ _).mem_iff.2 h1⟩

theorem includes_empty_left (q : String) (h : q ≠ "") : includes "" q = false := by
  unfold includes
  have : q.data ≠ [] := by
    intro hq
    apply h
    cases q
    simp_all
  cases hd : q.data with
  | nil => exact absurd hd this
  | cons c cs => simp [List.tails, List.isPrefixOf]

theorem names_enumCounts (ks : List String) :
    (enumCounts ks).map (fun b => b.name) = enumOrder (firstSeen ks) := by
  rw [enumCounts, List.map_map]
  have : ((fun b : Bucket => b.name) ∘ countedBucket ks) = id := by
    funext k; rfl
  rw [this, List.map_id]

theorem nodup_names_enumCounts (ks : List String) :
    ((enumCounts ks).map (fun b => b.name)).Nodup := by
  rw [names_enumCounts]
  exact (enumOrder_perm _).nodup_iff.2 (nodup_firstSeen ks)

theorem mem_names_enumCounts (ks : List String) (k : String) :
    k ∈ (enumCounts ks).map (fun b => b.name) ↔ k ∈ ks := by
  rw [names_enumCounts, (enumOrder_perm _).mem_iff, mem_firstSeen]

theorem sum_counts_perm_firstSeen (ks L : List String) (hL : L.Perm (firstSeen ks)) :
    (L.map (fun k => ks.count k)).sum = ks.length := by
  have h1 : (firstSeen ks).Perm ks.dedup :=
    (List.perm_ext_iff_of_nodup (nodup_firstSeen ks) (List.nodup_dedup ks)).2
      (fun a => by rw [mem_firstSeen, List.mem_dedup])
  rw [((hL.trans h1).map (fun k => ks.count k)).sum_eq]
  exact List.sum_map_count_dedup_eq_length ks

theorem sum_enumCounts (ks : List String) :
    ((enumCounts ks).map Bucket.count).sum = ks.length := by
  have : (enumCounts ks).map Bucket.count
      = (enumOrder (firstSeen ks)).map (fun k => ks.count k) := by
    rw [enumCounts, List.map_map]
    rfl
  rw [this]
  exact sum_counts_perm_firstSeen ks _ (enumOrder_perm _)

theorem aggByStatus_eq (rows : List Row) (h : ∀ r ∈ rows, inherited (statusOf r) = false) :
    aggByStatus rows = enumCounts (rows.map statusOf) := by
  unfold aggByStatus
  rw [countBy_eq_countLabels, entries_countLabels]
  intro k hk
  obtain ⟨r, hr, rfl⟩ := List.mem_map.1 hk
  exact h r hr

/-- For status labels none of which is a property of `Object.prototype`, the
status aggregation has one bucket per distinct label, holding the number of rows
with that label, and the counts sum to the number of rows. -/
theorem aggByStatus_counts (rows : List Row)
    (h : ∀ r ∈ rows, inherited (statusOf r) = false) :
    aggByStatus rows = enumCounts (rows.map statusOf)
    ∧ ((aggByStatus rows).map (fun b => b.name)).Nodup
    ∧ (∀ k, k ∈ (aggByStatus rows).map (fun b => b.name) ↔ ∃ r ∈ rows, statusOf r = k)
    ∧ ((aggByStatus rows).map Bucket.count).sum = rows.length := by
  rw [aggByStatus_eq rows h]
  refine ⟨rfl, nodup_names_enumCounts _, ?_, ?_⟩
  · intro k
    rw [mem_names_enumCounts, List.mem_map]
  · rw [sum_enumCounts, List.length_map]

theorem timeSeriesStep_eq (env : DateEnv) (m : CountObj) (r : Row) :
    timeSeriesStep env m r =
      match rowKey env r with
      | some k => stepCount m k
      | none => m := by
  unfold timeSeriesStep rowKey rowTime
  cases firstTruthy r purchaseKeys with
  | none => rfl
  | some c =>
    simp only [Option.bind]
    cases newDate env c <;> rfl

theorem foldl_timeSeriesStep (env : DateEnv) (rows : List Row) (m : CountObj) :
    rows.foldl (timeSeriesStep env) m = (rows.filterMap (rowKey env)).foldl stepCount m := by
  induction rows generalizing m with
  | nil => rfl
  | cons r rs ih =>
    rw [List.foldl_cons, ih, timeSeriesStep_eq, List.filterMap_cons]
    cases rowKey env r <;> rfl

theorem monthFromDays_lt (z : Int) : monthFromDays z < 12 := by
  unfold monthFromDays
  have h : ((z + 719468) % 146097).toNat < 146097 := by omega
  generalize ((z + 719468) % 146097).toNat = doe at h
  simp only
  split <;> omega

theorem hyphen_mem_monthKey (y : Int) (m : Nat) : '-' ∈ (monthKey y m).data := by
  unfold monthKey
  simp [String.data_append]

theorem inherited_monthKey (y : Int) (m : Nat) : inherited (monthKey y m) = false := by
  have h := hyphen_mem_monthKey y m
  cases hi : inherited (monthKey y m) with
  | false => rfl
  | true =>
    exfalso
    simp only [inherited, protoFunctions, Bool.or_eq_true, beq_iff_eq, List.contains_eq_any_beq,
      List.any_cons, List.any_nil, Bool.or_false] at hi
    revert h
    rcases hi with hi | hi | hi | hi | hi | hi | hi | hi | hi | hi | hi | hi <;>
      (rw [hi]; decide)

theorem arrayIndex_monthKey (y : Int) (m : Nat) : arrayIndex (monthKey y m) = none := by
  have h := hyphen_mem_monthKey y m
  unfold arrayIndex
  have h2 : (monthKey y m).data.all Char.isDigit = false := by
    rw [List.all_eq_false]
    exact ⟨'-', h, by decide⟩
  simp only [h2]
  split <;> simp

theorem mem_rowKeys (env : DateEnv) (rows : List Row) (k : String)
    (hk : k ∈ rows.filterMap (rowKey env)) :
    ∃ r ∈ rows, ∃ t, rowTime env r = some t ∧ k = periodKey env t := by
  obtain ⟨r, hr, hrk⟩ := List.mem_filterMap.1 hk
  refine ⟨r, hr, ?_⟩
  unfold rowKey at hrk
  cases ht : rowTime env r with
  | none => simp [ht] at hrk
  | some t =>
    simp only [ht, Option.map_some', Option.some.injEq] at hrk
    exact ⟨t, rfl, hrk.symm⟩

theorem timeSeries_eq (env : DateEnv) (rows : List Row) :
    timeSeriesByPurchase env rows
      = jsSort byName (firstSeenCounts (rows.filterMap (rowKey env))) := by
  unfold timeSeriesByPurchase
  rw [foldl_timeSeriesStep]
  have hkeys : ∀ k ∈ rows.filterMap (rowKey env), inherited k = false ∧ arrayIndex k = none := by
    intro k hk
    obtain ⟨r, _, t, _, rfl⟩ := mem_rowKeys env rows k hk
    exact ⟨inherited_monthKey _ _, arrayIndex_monthKey _ _⟩
  have h1 : (rows.filterMap (rowKey env)).foldl stepCount [] = countLabels (rows.filterMap (rowKey env)) := rfl
  rw [h1, entries_countLabels _ (fun k hk => (hkeys k hk).1), enumCounts, firstSeenCounts,
    enumOrder_eq_self]
  intro k hk
  rw [mem_firstSeen] at hk
  exact (hkeys k hk).2

theorem jsSort_perm {α : Type} (cmp : α → α → Option Int) (xs : List α) :
    (jsSort cmp xs).Perm xs :=
  List.perm_insertionSort _ _

theorem length_filterMap_countP {α β : Type} (f : α → Option β) (l : List α) :
    (l.filterMap f).length = l.countP (fun a => (f a).isSome) := by
  induction l with
  | nil => rfl
  | cons a l ih =>
    cases h : f a with
    | none => simp [List.filterMap_cons, h, List.countP_cons, ih]
    | some b => simp [List.filterMap_cons, h, List.countP_cons, ih]

theorem count_filterMap {α : Type} (f : α → Option String) (l : List α) (k : String) :
    (l.filterMap f).count k = l.countP (fun a => f a == some k) := by
  induction l with
  | nil => rfl
  | cons a l ih =>
    cases h : f a with
    | none => simp [List.filterMap_cons, h, List.countP_cons, ih]
    | some b =>
      by_cases hb : b = k
      · subst hb; simp [List.filterMap_cons, h, List.countP_cons, ih]
      · have : (b == k) = false := by simpa using hb
        simp [List.filterMap_cons, h, List.countP_cons, ih, List.count_cons, this, hb]

theorem sum_firstSeenCounts (ks : List String) :
    ((firstSeenCounts ks).map Bucket.count).sum = ks.length := by
  have : (firstSeenCounts ks).map Bucket.count = (firstSeen ks).map (fun k => ks.count k) := by
    rw [firstSeenCounts, List.map_map]
    rfl
  rw [this]
  exact sum_counts_perm_firstSeen ks _ (List.Perm.refl _)

/-- The points of the time series: their counts sum to the number of counted
rows, their keys are distinct, each holds the number of rows counted under its
key, and every counted row has its point. -/
theorem timeSeries_points (env : DateEnv) (rows : List Row) :
    ((timeSeriesByPurchase env rows).map Bucket.count).sum
        = rows.countP (fun r => (rowKey env r).isSome)
    ∧ ((timeSeriesByPurchase env rows).map (fun b => b.name)).Nodup
    ∧ (∀ b ∈ timeSeriesByPurchase env rows,
        b.value = .num (rows.countP (fun r => rowKey env r == some b.name))
        ∧ 0 < rows.countP (fun r => rowKey env r == some b.name))
    ∧ (∀ r ∈ rows, ∀ k, rowKey env r = some k →
        ∃ b ∈ timeSeriesByPurchase env rows, b.name = k) := by
  rw [timeSeries_eq]
  have hp := jsSort_perm byName (firstSeenCounts (rows.filterMap (rowKey env)))
  refine ⟨?_, ?_, ?_, ?_⟩
  · rw [(hp.map Bucket.count).sum_eq, sum_firstSeenCounts, length_filterMap_countP]
  · rw [(hp.map (fun b => b.name)).nodup_iff, firstSeenCounts, List.map_map]
    have : ((fun b : Bucket => b.name) ∘ countedBucket (rows.filterMap (rowKey env))) = id := by
      funext k; rfl
    rw [this, List.map_id]
    exact nodup_firstSeen _
  · intro b hb
    rw [hp.mem_iff, firstSeenCounts, List.mem_map] at hb
    obtain ⟨k, hk, rfl⟩ := hb
    rw [mem_firstSeen] at hk
    have hc := count_filterMap (rowKey env) rows k
    have hpos : 0 < (rows.filterMap (rowKey env)).count k := List.count_pos_iff.2 hk
    simp only [countedBucket]
    rw [← hc]
    exact ⟨rfl, hpos⟩
  · intro r hr k hk
    refine ⟨countedBucket (rows.filterMap (rowKey env)) k, ?_, rfl⟩
    rw [hp.mem_iff, firstSeenCounts]
    apply List.mem_map_of_mem
    rw [mem_firstSeen]
    exact List.mem_filterMap.2 ⟨r, hr, hk⟩

theorem periodKey_march_2024 (env : DateEnv)
    (htz : ∀ t, -msPerDay ≤ env.localTZA t ∧ env.localTZA t ≤ msPerDay) :
    periodKey env 1710460800000 = "2024-03" := by
  unfold periodKey getFullYear getMonth localTime
  have h := htz 1710460800000
  unfold msPerDay at h ⊢
  have hd : (1710460800000 + env.localTZA 1710460800000) / 86400000 = 19796
      ∨ (1710460800000 + env.localTZA 1710460800000) / 86400000 = 19797
      ∨ (1710460800000 + env.localTZA 1710460800000) / 86400000 = 19798 := by omega
  rcases hd with hd | hd | hd <;> rw [hd] <;> decide

theorem timeSeries_example (env : DateEnv) (hp : env.parseOther "not-a-date" = none)
    (htz : ∀ t, -msPerDay ≤ env.localTZA t ∧ env.localTZA t ≤ msPerDay) :
    timeSeriesByPurchase env purchaseExampleRows = [⟨"2024-03", .num 1⟩] := by
  have h1 : rowKey env [("purchase_date", .str "2024-03-15")] = some "2024-03" := by
    have a : firstTruthy [("purchase_date", Cell.str "2024-03-15")] purchaseKeys
        = some (.str "2024-03-15") := by decide
    have b : parseIsoDate "2024-03-15" = some 1710460800000 := by decide
    have c : timeClip 1710460800000 = some 1710460800000 := by decide
    simp only [rowKey, rowTime, a, Option.bind, newDate, dateParse, b, c, Option.map_some',
      periodKey_march_2024 env htz]
  have h2 : rowKey env [("PurchaseDate", .str "not-a-date")] = none := by
    have a : firstTruthy [("PurchaseDate", Cell.str "not-a-date")] purchaseKeys
        = some (.str "not-a-date") := by decide
    have b : parseIsoDate "not-a-date" = none := by decide
    simp only [rowKey, rowTime, a, Option.bind, newDate, dateParse, b, hp, Option.map_none']
  rw [timeSeries_eq]
  simp only [purchaseExampleRows, List.filterMap_cons, h1, h2, List.filterMap_nil]
  decide

theorem lex_cons_cons (a b : Char) (l1 l2 : List Char) :
    (a :: l1) < (b :: l2) ↔ a < b ∨ (a = b ∧ l1 < l2) := by
  constructor
  · intro h
    cases h with
    | cons h => exact Or.inr ⟨rfl, h⟩
    | rel h => exact Or.inl h
  · rintro (h | ⟨rfl, h⟩)
    · exact List.Lex.rel h
    · exact List.Lex.cons h

theorem digitChar_lt_iff : ∀ a < 10, ∀ b < 10,
    (Nat.digitChar a < Nat.digitChar b ↔ a < b) := by decide

theorem digitChar_eq_iff : ∀ a < 10, ∀ b < 10,
    (Nat.digitChar a = Nat.digitChar b ↔ a = b) := by decide

theorem digitChar_isDigit : ∀ a < 10, (Nat.digitChar a).isDigit = true := by decide

theorem toDigits_four (n : Nat) (h1 : 1000 ≤ n) (h2 : n ≤ 9999) :
    Nat.toDigits 10 n = [Nat.digitChar (n / 1000), Nat.digitChar (n / 100 % 10),
      Nat.digitChar (n / 10 % 10), Nat.digitChar (n % 10)] := by
  obtain ⟨f, hf⟩ : ∃ f, n + 1 = f + 4 := ⟨n - 3, by omega⟩
  unfold Nat.toDigits
  rw [hf]
  have a1 : n / 10 ≠ 0 := by omega
  have a2 : n / 10 / 10 ≠ 0 := by omega
  have a3 : n / 10 / 10 / 10 ≠ 0 := by omega
  have a4 : n / 10 / 10 / 10 / 10 = 0 := by omega
  simp only [Nat.toDigitsCore, a1, a2, a3, a4, if_true, if_false]
  have b1 : n / 10 / 10 / 10 % 10 = n / 1000 := by omega
  have b2 : n / 10 / 10 % 10 = n / 100 % 10 := by omega
  rw [b1, b2]

theorem padded_month_data (m : Nat) (hm : m < 12) :
    (padStart (toString (m + 1)) 2 '0').data
      = [Nat.digitChar ((m + 1) / 10), Nat.digitChar ((m + 1) % 10)] := by
  interval_cases m <;> decide

theorem monthKey_data (n m : Nat) (h1 : 1000 ≤ n) (h2 : n ≤ 9999) (hm : m < 12) :
    (monthKey (n : Int) m).data
      = [Nat.digitChar (n / 1000), Nat.digitChar (n / 100 % 10), Nat.digitChar (n / 10 % 10),
          Nat.digitChar (n % 10), '-', Nat.digitChar ((m + 1) / 10),
          Nat.digitChar ((m + 1) % 10)] := by
  unfold monthKey
  rw [String.data_append, String.data_append, padded_month_data m hm]
  have : (toString (n : Int)).data = Nat.toDigits 10 n := rfl
  rw [this, toDigits_four n h1 h2]
  rfl

theorem monthKey_lt_iff (n m n2 m2 : Nat) (h1 : 1000 ≤ n) (h2 : n ≤ 9999) (hm : m < 12)
    (h3 : 1000 ≤ n2) (h4 : n2 ≤ 9999) (hm2 : m2 < 12) :
    (monthKey (n : Int) m).data < (monthKey (n2 : Int) m2).data
      ↔ n < n2 ∨ (n = n2 ∧ m < m2) := by
  rw [monthKey_data n m h1 h2 hm, monthKey_data n2 m2 h3 h4 hm2]
  simp only [lex_cons_cons]
  rw [digitChar_lt_iff (n / 1000) (by omega) (n2 / 1000) (by omega),
    digitChar_eq_iff (n / 1000) (by omega) (n2 / 1000) (by omega),
    digitChar_lt_iff (n / 100 % 10) (by omega) (n2 / 100 % 10) (by omega),
    digitChar_eq_iff (n / 100 % 10) (by omega) (n2 / 100 % 10) (by omega),
    digitChar_lt_iff (n / 10 % 10) (by omega) (n2 / 10 % 10) (by omega),
    digitChar_eq_iff (n / 10 % 10) (by omega) (n2 / 10 % 10) (by omega),
    digitChar_lt_iff (n % 10) (by omega) (n2 % 10) (by omega),
    digitChar_eq_iff (n % 10) (by omega) (n2 % 10) (by omega),
    digitChar_lt_iff ((m + 1) / 10) (by omega) ((m2 + 1) / 10) (by omega),
    digitChar_eq_iff ((m + 1) / 10) (by omega) ((m2 + 1) / 10) (by omega),
    digitChar_lt_iff ((m + 1) % 10) (by omega) ((m2 + 1) % 10) (by omega),
    digitChar_eq_iff ((m + 1) % 10) (by omega) ((m2 + 1) % 10) (by omega)]
  have e1 : ¬ (('-' : Char) < '-') := by decide
  have e2 : ¬ (([] : List Char) < []) := by decide
  simp only [e1, e2, false_or, true_and, and_false, or_false]
  omega

theorem monthKey_lt_iff_int (y y2 : Int) (m m2 : Nat) (h1 : 1000 ≤ y) (h2 : y ≤ 9999)
    (hm : m < 12) (h3 : 1000 ≤ y2) (h4 : y2 ≤ 9999) (hm2 : m2 < 12) :
    (monthKey y m).data < (monthKey y2 m2).data ↔ y < y2 ∨ (y = y2 ∧ m < m2) := by
  obtain ⟨n, rfl⟩ := Int.eq_ofNat_of_zero_le (by omega : 0 ≤ y)
  obtain ⟨n2, rfl⟩ := Int.eq_ofNat_of_zero_le (by omega : 0 ≤ y2)
  rw [monthKey_lt_iff n m n2 m2 (by omega) (by omega) hm (by omega) (by omega) hm2]
  omega

theorem isYearMonthKey_monthKey (y : Int) (m : Nat) (h1 : 1000 ≤ y) (h2 : y ≤ 9999)
    (hm : m < 12) : isYearMonthKey (monthKey y m) = true := by
  obtain ⟨n, rfl⟩ := Int.eq_ofNat_of_zero_le (by omega : 0 ≤ y)
  unfold isYearMonthKey
  rw [monthKey_data n m (by omega) (by omega) hm]
  simp only [List.all_cons, List.all_nil, Bool.and_true, Bool.and_eq_true, beq_self_eq_true,
    and_true]
  refine ⟨?_, ?_, ?_, ?_, ?_, ?_⟩ <;> exact digitChar_isDigit _ (by omega)

theorem keepsOrder_byName (a b : Bucket) :
    keepsOrder byName a b = true ↔ a.name.data ≤ b.name.data := by
  unfold keepsOrder byName localeCompare
  simp only
  by_cases h : a.name.data < b.name.data
  · simp [h, le_of_lt h]
  · by_cases h2 : a.name = b.name
    · simp [h, h2]
    · have h3 : ¬ a.name.data ≤ b.name.data := by
        intro hle
        rcases lt_or_eq_of_le hle with h4 | h4
        · exact h h4
        · exact h2 (String.ext h4)
      simp [h, h2, h3]

theorem jsSort_byName_sorted (bs : List Bucket) :
    (jsSort byName bs).Pairwise (fun a b => a.name.data ≤ b.name.data) := by
  have e : jsSort byName bs = bs.insertionSort (fun a b => a.name.data ≤ b.name.data) := by
    have := List.map_insertionSort (fun a b : Bucket => keepsOrder byName a b = true)
      (fun a b : Bucket => a.name.data ≤ b.name.data) id bs
      (fun a _ b _ => keepsOrder_byName a b)
    simpa [jsSort] using this
  rw [e]
  haveI : IsTotal Bucket (fun a b => a.name.data ≤ b.name.data) :=
    ⟨fun a b => le_total _ _⟩
  haveI : IsTrans Bucket (fun a b => a.name.data ≤ b.name.data) :=
    ⟨fun _ _ _ h1 h2 => le_trans h1 h2⟩
  exact List.sorted_insertionSort (fun a b : Bucket => a.name.data ≤ b.name.data) bs

theorem exists_preimage_list {α β : Type} (f : β → α) (P : β → Prop) (N : List α)
    (h : ∀ n ∈ N, ∃ p, P p ∧ n = f p) : ∃ L : List β, N = L.map f ∧ ∀ p ∈ L, P p := by
  induction N with
  | nil => exact ⟨[], rfl, by simp⟩
  | cons n N ih =>
    obtain ⟨p, hp, rfl⟩ := h n (List.mem_cons_self _ _)
    obtain ⟨L, rfl, hL⟩ := ih (fun n hn => h n (List.mem_cons_of_mem _ hn))
    refine ⟨p :: L, rfl, ?_⟩
    intro q hq
    rcases List.mem_cons.1 hq with rfl | hq
    · exact hp
    · exact hL q hq

/-- The time series is strictly ascending by key, whatever the years. -/
theorem timeSeries_strictly_sorted (env : DateEnv) (rows : List Row) :
    (timeSeriesByPurchase env rows).Pairwise (fun a b => a.name.data < b.name.data) := by
  have hnd := (timeSeries_points env rows).2.1
  rw [timeSeries_eq] at hnd ⊢
  have h1 := jsSort_byName_sorted (firstSeenCounts (rows.filterMap (rowKey env)))
  have h2 : (jsSort byName (firstSeenCounts (rows.filterMap (rowKey env)))).Pairwise
      (fun a b => a.name ≠ b.name) := by
    have := hnd
    unfold List.Nodup at this
    rwa [List.pairwise_map] at this
  refine (h1.and h2).imp ?_
  intro a b hab
  exact lt_of_le_of_ne hab.1 (fun hh => hab.2 (String.ext hh))

theorem mem_timeSeries_name (env : DateEnv) (rows : List Row) (b : Bucket)
    (hb : b ∈ timeSeriesByPurchase env rows) :
    ∃ r ∈ rows, ∃ t, rowTime env r = some t
      ∧ b.name = monthKey (getFullYear env t) (getMonth env t) := by
  rw [timeSeries_eq, (jsSort_perm _ _).mem_iff, firstSeenCounts, List.mem_map] at hb
  obtain ⟨k, hk, rfl⟩ := hb
  rw [mem_firstSeen] at hk
  obtain ⟨r, hr, t, ht, rfl⟩ := mem_rowKeys env rows k hk
  exact ⟨r, hr, t, ht, rfl⟩

theorem firstTruthy_eq_find (r : Row) (keys : List String) :
    firstTruthy r keys = (keys.find? (truthyAt r)).bind (fun k => r.lookup k) := by
  induction keys with
  | nil => rfl
  | cons k ks ih =>
    simp only [firstTruthy, List.find?_cons, truthyAt]
    cases h : r.lookup k with
    | none => simpa using ih
    | some c =>
      by_cases hc : c.truthy = true
      · simp only [hc, if_true]
        simp [h]
      · have hc2 : c.truthy = false := by simpa using hc
        simp only [hc2]
        simpa using ih

theorem length_jsSort {α : Type} (cmp : α → α → Option Int) (xs : List α) :
    (jsSort cmp xs).length = xs.length :=
  List.length_insertionSort _ _

theorem slice_short {α : Type} (xs : List α) (n : Nat) (h : xs.length ≤ n) :
    slice xs 0 (n : Int) = xs := by
  rw [slice_zero, List.take_of_length_le h]

theorem text_eq_plainText (c : Cell) (h : c ≠ .num 0) : c.text = c.plainText := by
  cases c with
  | empty => rfl
  | str s =>
    by_cases hs : s = ""
    · subst hs; rfl
    · simp [Cell.text, Cell.truthy, Cell.plainText, hs]
  | num n =>
    have hn : n ≠ 0 := fun hh => h (by rw [hh])
    simp [Cell.text, Cell.truthy, Cell.plainText, hn]

/-- The filter on rows none of whose cells is the number 0: with the empty
search term all rows, otherwise the rows, in order, some value of which, taken
as text and lower-cased, includes the lower-cased search term. -/
theorem filtered_of_no_zero (lower : String → String) (rows : List Row) (query : String)
    (h : ∀ r ∈ rows, ∀ e ∈ r, e.2 ≠ Cell.num 0) :
    filtered lower rows "" = rows
    ∧ (query ≠ "" → filtered lower rows query
        = rows.filter (fun r => r.any (fun e => includes (lower e.2.plainText) (lower query))))
    ∧ List.Sublist (filtered lower rows query) rows := by
  refine ⟨by simp [filtered], ?_, ?_⟩
  · intro hq
    simp only [filtered, if_neg hq]
    apply List.filter_congr
    intro r hr
    have hr2 := h r hr
    clear hr
    induction r with
    | nil => rfl
    | cons e es ih =>
      simp only [List.map_cons, List.any_cons]
      rw [ih (fun e2 he2 => hr2 e2 (List.mem_cons_of_mem _ he2)),
        text_eq_plainText e.2 (hr2 e (List.mem_cons_self _ _))]
  · unfold filtered
    split
    · exact List.Sublist.refl _
    · exact List.filter_sublist _

theorem step_page_pos (s : ListingState) (a : Action) (h : 1 ≤ s.page) :
    1 ≤ (step s a).page := by
  cases a with
  | anterior => exact le_max_left _ _
  | siguiente => show 1 ≤ s.page + 1; omega
  | search q => exact le_refl _
  | setRows rows => exact h

theorem run_append_single (actions : List Action) (a : Action) :
    run (actions ++ [a]) = step (run actions) a := by
  simp [run, List.foldl_append]

theorem run_page_pos (actions : List Action) : 1 ≤ (run actions).page := by
  induction actions using List.reverseRecOn with
  | nil => exact le_refl _
  | append_singleton actions a ih =>
    rw [run_append_single]
    exact step_page_pos _ a ih

theorem run_siguiente (actions : List Action) (k : Nat) :
    run (actions ++ List.replicate k Action.siguiente)
      = ⟨(run actions).rows, (run actions).query, (run actions).page + k⟩ := by
  induction k with
  | zero => simp
  | succ k ih =>
    rw [List.replicate_succ', ← List.append_assoc, run_append_single, ih]
    simp only [step]
    congr 1
    push_cast
    omega

theorem firstSeen_perm_dedup (ks : List String) : (firstSeen ks).Perm ks.dedup :=
  (List.perm_ext_iff_of_nodup (nodup_firstSeen ks) (List.nodup_dedup ks)).2
    (fun a => by rw [mem_firstSeen, List.mem_dedup])

/-- The number of buckets the counting loop leaves: the number of distinct
labels other than `__proto__`. -/
theorem length_entries_countBy (label : Row → String) (rows : List Row) :
    (entries (countBy label rows)).length
      = (((rows.map label).filter (fun k => k != "__proto__")).dedup).length := by
  rw [(entries_perm _).length_eq, countBy_eq_countLabels]
  have h : (countLabels (rows.map label)).length
      = (keysOf (countLabels (rows.map label))).length := by
    simp [keysOf]
  rw [h, keysOf_countLabels, (firstSeen_perm_dedup _).length_eq]

/-- The metric "Ubicaciones registradas" is the number of distinct location
labels other than `__proto__`, capped at 10; when no row resolves to
`__proto__` it is the number of distinct location labels, capped at 10. -/
theorem ubicacionesRegistradas_eq (rows : List Row) :
    ubicacionesRegistradas rows
        = min 10 ((((rows.map locationOf).filter (fun k => k != "__proto__")).dedup).length)
    ∧ ((∀ r ∈ rows, locationOf r ≠ "__proto__") →
        ubicacionesRegistradas rows = min 10 (distinctLocations rows)) := by
  have h1 : ubicacionesRegistradas rows
      = min 10 ((((rows.map locationOf).filter (fun k => k != "__proto__")).dedup).length) := by
    unfold ubicacionesRegistradas
    have e : aggByLocation rows
        = (jsSort byValueDesc ((entries (countBy locationOf rows)).map toBucket)).take 10 :=
      slice_zero _ 10
    rw [e, List.length_take, length_jsSort, List.length_map, length_entries_countBy]
  refine ⟨h1, fun h => ?_⟩
  rw [h1, distinctLocations]
  have : (rows.map locationOf).filter (fun k => k != "__proto__") = rows.map locationOf := by
    rw [List.filter_eq_self]
    intro k hk
    obtain ⟨r, hr, rfl⟩ := List.mem_map.1 hk
    simpa using h r hr
  rw [this]

theorem yoe_roundtrip (yoe doy : Nat) (h1 : yoe ≤ 399) (h2 : doy ≤ 365)
    (h3 : doy = 365 → yoe % 4 = 3 ∧ (yoe % 100 ≠ 99 ∨ yoe = 399)) :
    ((365 * yoe + yoe / 4 - yoe / 100 + doy)
      - (365 * yoe + yoe / 4 - yoe / 100 + doy) / 1460
      + (365 * yoe + yoe / 4 - yoe / 100 + doy) / 36524
      - (365 * yoe + yoe / 4 - yoe / 100 + doy) / 146096) / 365 = yoe := by
  obtain ⟨c, hc⟩ : ∃ c, c = yoe / 100 := ⟨_, rfl⟩
  obtain ⟨q, hq⟩ : ∃ q, q = yoe / 4 := ⟨_, rfl⟩
  have hd : 365 * yoe + yoe / 4 - yoe / 100 + doy = 365 * yoe + q - c + doy := by rw [hc, hq]
  rw [hd]
  generalize hdoe : 365 * yoe + q - c + doy = doe
  have hc3 : c ≤ 3 := by omega
  have e1 : doe / 36524 = if yoe = 399 ∧ doy = 365 then 4 else c := by
    split <;> interval_cases c <;> omega
  have e2 : doe / 146096 = if yoe = 399 ∧ doy = 365 then 1 else 0 := by
    split <;> omega
  rw [e1, e2]
  split
  · omega
  · interval_cases c <;> omega

theorem doe_lt (yoe doy : Nat) (h1 : yoe ≤ 399) (h2 : doy ≤ 365)
    (_h3 : doy = 365 → yoe % 4 = 3 ∧ (yoe % 100 ≠ 99 ∨ yoe = 399)) :
    365 * yoe + yoe / 4 - yoe / 100 + doy < 146097 := by
  omega

theorem monthFromDays_of (era : Int) (yoe doy : Nat) (h1 : yoe ≤ 399) (h2 : doy ≤ 365)
    (h3 : doy = 365 → yoe % 4 = 3 ∧ (yoe % 100 ≠ 99 ∨ yoe = 399)) :
    monthFromDays (era * 146097 + ((365 * yoe + yoe / 4 - yoe / 100 + doy : Nat) : Int) - 719468)
      = if (5 * doy + 2) / 153 < 10 then (5 * doy + 2) / 153 + 2 else (5 * doy + 2) / 153 - 10 := by
  have hlt := doe_lt yoe doy h1 h2 h3
  have key : ((era * 146097 + ((365 * yoe + yoe / 4 - yoe / 100 + doy : Nat) : Int) - 719468
      + 719468) % 146097).toNat = 365 * yoe + yoe / 4 - yoe / 100 + doy := by
    omega
  unfold monthFromDays
  simp only [key, yoe_roundtrip yoe doy h1 h2 h3]
  have e : 365 * yoe + yoe / 4 - yoe / 100 + doy - (365 * yoe + yoe / 4 - yoe / 100) = doy := by
    omega
  rw [e]

theorem yearFromDays_of (era : Int) (yoe doy : Nat) (h1 : yoe ≤ 399) (h2 : doy ≤ 365)
    (h3 : doy = 365 → yoe % 4 = 3 ∧ (yoe % 100 ≠ 99 ∨ yoe = 399)) :
    yearFromDays (era * 146097 + ((365 * yoe + yoe / 4 - yoe / 100 + doy : Nat) : Int) - 719468)
      = (yoe : Int) + era * 400 + (if (5 * doy + 2) / 153 < 10 then 0 else 1) := by
  have hlt := doe_lt yoe doy h1 h2 h3
  have key : ((era * 146097 + ((365 * yoe + yoe / 4 - yoe / 100 + doy : Nat) : Int) - 719468
      + 719468) % 146097).toNat = 365 * yoe + yoe / 4 - yoe / 100 + doy := by
    omega
  have key2 : (era * 146097 + ((365 * yoe + yoe / 4 - yoe / 100 + doy : Nat) : Int) - 719468
      + 719468) / 146097 = era := by
    omega
  have hm := monthFromDays_of era yoe doy h1 h2 h3
  unfold yearFromDays
  simp only [key, key2, yoe_roundtrip yoe doy h1 h2 h3, hm]
  have hmp : (5 * doy + 2) / 153 ≤ 11 := by omega
  by_cases hc : (5 * doy + 2) / 153 < 10
  · simp only [hc, if_true]
    have : ¬ ((5 * doy + 2) / 153 + 2 < 2) := by omega
    simp [this]
  · simp only [hc, if_false]
    have : (5 * doy + 2) / 153 - 10 < 2 := by omega
    simp [this]

theorem isLeapYear_iff (y : Int) :
    isLeapYear y = true ↔ (y % 4 = 0 ∧ y % 100 ≠ 0) ∨ y % 400 = 0 := by
  simp [isLeapYear]

theorem day_bounds (y : Int) (m d : Nat) (hd2 : d ≤ daysInMonth y m) :
    d ≤ 31 ∧ (m = 2 → d ≤ 29 ∧ (d = 29 → (y % 4 = 0 ∧ y % 100 ≠ 0) ∨ y % 400 = 0))
      ∧ ((m = 4 ∨ m = 6 ∨ m = 9 ∨ m = 11) → d ≤ 30) := by
  unfold daysInMonth at hd2
  by_cases h2 : m = 2
  · subst h2
    simp only [beq_self_eq_true, if_true] at hd2
    by_cases hl : isLeapYear y = true
    · rw [if_pos hl] at hd2
      exact ⟨by omega, fun _ => ⟨hd2, fun _ => (isLeapYear_iff y).1 hl⟩, by omega⟩
    · rw [if_neg hl] at hd2
      exact ⟨by omega, fun _ => ⟨by omega, fun h => by omega⟩, by omega⟩
  · have e2 : (m == 2) = false := by simpa using h2
    rw [e2] at hd2
    simp only [Bool.false_eq_true, if_false] at hd2
    by_cases h30 : m = 4 ∨ m = 6 ∨ m = 9 ∨ m = 11
    · have e : (m == 4 || m == 6 || m == 9 || m == 11) = true := by
        rcases h30 with h | h | h | h <;> subst h <;> rfl
      rw [if_pos e] at hd2
      exact ⟨by omega, fun h => absurd h h2, fun _ => hd2⟩
    · refine ⟨?_, fun h => absurd h h2, fun h => absurd h h30⟩
      split at hd2 <;> omega

theorem daysFromCivil_eq (y : Int) (m d : Nat) (hm1 : 1 ≤ m) (hm2 : m ≤ 12) (hd1 : 1 ≤ d) :
    daysFromCivil y m d
      = ((if m ≤ 2 then y - 1 else y) / 400) * 146097
        + ((365 * ((if m ≤ 2 then y - 1 else y) % 400).toNat
            + ((if m ≤ 2 then y - 1 else y) % 400).toNat / 4
            - ((if m ≤ 2 then y - 1 else y) % 400).toNat / 100
            + ((153 * (if 2 < m then m - 3 else m + 9) + 2) / 5 + d - 1) : Nat) : Int)
        - 719468 := by
  unfold daysFromCivil
  simp only
  by_cases h : m ≤ 2
  · have h' : ¬ 2 < m := by omega
    simp only [h, h', if_true, if_false]
    omega
  · have h' : 2 < m := by omega
    simp only [h, h', if_true, if_false]
    omega

/-- The calendar functions invert the day number of a calendar date. -/
theorem civil_roundtrip (y : Int) (m d : Nat) (hm1 : 1 ≤ m) (hm2 : m ≤ 12) (hd1 : 1 ≤ d)
    (hd2 : d ≤ daysInMonth y m) :
    yearFromDays (daysFromCivil y m d) = y ∧ monthFromDays (daysFromCivil y m d) + 1 = m := by
  obtain ⟨b1, b2, b3⟩ := day_bounds y m d hd2
  rw [daysFromCivil_eq y m d hm1 hm2 hd1]
  generalize hy1 : (if m ≤ 2 then y - 1 else y) = y1
  generalize hmp : (if 2 < m then m - 3 else m + 9) = mp
  generalize hyoe : (y1 % 400).toNat = yoe
  generalize hdoy : (153 * mp + 2) / 5 + d - 1 = doy
  have h1 : yoe ≤ 399 := by omega
  have hmp11 : mp ≤ 11 := by
    rw [← hmp]; split <;> omega
  have hmpm : (mp = 11 ↔ m = 2) ∧ (mp = 1 ↔ m = 4) ∧ (mp = 3 ↔ m = 6) ∧ (mp = 6 ↔ m = 9)
      ∧ (mp = 8 ↔ m = 11) := by
    rw [← hmp]; split <;> omega
  have h2 : doy ≤ 365 := by
    rw [← hdoy]
    interval_cases mp <;> omega
  have hq : (5 * doy + 2) / 153 = mp := by
    rw [← hdoy]
    interval_cases mp <;> omega
  have h3 : doy = 365 → yoe % 4 = 3 ∧ (yoe % 100 ≠ 99 ∨ yoe = 399) := by
    intro h365
    have hm2' : m = 2 ∧ d = 29 := by
      rw [← hdoy] at h365
      interval_cases mp <;> omega
    have hl := (b2 hm2'.1).2 hm2'.2
    have hy1' : y1 = y - 1 := by
      rw [← hy1, if_pos (by omega)]
    omega
  rw [yearFromDays_of (y1 / 400) yoe doy h1 h2 h3, monthFromDays_of (y1 / 400) yoe doy h1 h2 h3, hq]
  constructor
  · have hyy : (yoe : Int) + y1 / 400 * 400 = y1 := by omega
    rw [hyy, ← hy1, ← hmp]
    by_cases hm : m ≤ 2
    · have hm' : ¬ 2 < m := by omega
      simp only [hm, hm', if_true, if_false]
      have : ¬ (m + 9 < 10) := by omega
      simp only [this, if_false]
      omega
    · have hm' : 2 < m := by omega
      simp only [hm, hm', if_true, if_false]
      have : m - 3 < 10 := by omega
      simp only [this, if_true]
      omega
  · rw [← hmp]
    by_cases hm : 2 < m
    · simp only [hm, if_true]
      have : m - 3 < 10 := by omega
      simp only [this, if_true]
      omega
    · simp only [hm, if_false]
      have : ¬ (m + 9 < 10) := by omega
      simp only [this, if_false]
      omega

theorem isDigit_bounds (c : Char) (h : c.isDigit = true) : 48 ≤ c.toNat ∧ c.toNat ≤ 57 := by
  simp only [Char.isDigit, Bool.and_eq_true, decide_eq_true_eq] at h
  have h1 : (48 : UInt32) ≤ c.val := h.1
  have h2 : c.val ≤ (57 : UInt32) := h.2
  rw [UInt32.le_def] at h1 h2
  exact ⟨h1, h2⟩

theorem digitChar_digitVal (c : Char) (h : c.isDigit = true) :
    Nat.digitChar (digitVal c) = c := by
  obtain ⟨h1, h2⟩ := isDigit_bounds c h
  have hc := Char.ofNat_toNat c
  unfold digitVal
  generalize c.toNat = n at h1 h2 hc
  subst hc
  interval_cases n <;> decide

theorem digitVal_lt (c : Char) (h : c.isDigit = true) : digitVal c < 10 := by
  obtain ⟨h1, h2⟩ := isDigit_bounds c h
  unfold digitVal
  omega

theorem parseIsoDate_some (s : String) (t : Int) (h : parseIsoDate s = some t) :
    ∃ y1 y2 y3 y4 m1 m2 d1 d2 : Char,
      s.data = [y1, y2, y3, y4, '-', m1, m2, '-', d1, d2]
      ∧ [y1, y2, y3, y4, m1, m2, d1, d2].all Char.isDigit = true
      ∧ 1 ≤ digitVal m1 * 10 + digitVal m2 ∧ digitVal m1 * 10 + digitVal m2 ≤ 12
      ∧ 1 ≤ digitVal d1 * 10 + digitVal d2
      ∧ digitVal d1 * 10 + digitVal d2
          ≤ daysInMonth ((digitVal y1 * 1000 + digitVal y2 * 100 + digitVal y3 * 10
              + digitVal y4 : Nat) : Int) (digitVal m1 * 10 + digitVal m2)
      ∧ t = daysFromCivil ((digitVal y1 * 1000 + digitVal y2 * 100 + digitVal y3 * 10
              + digitVal y4 : Nat) : Int) (digitVal m1 * 10 + digitVal m2)
              (digitVal d1 * 10 + digitVal d2) * msPerDay := by
  unfold parseIsoDate at h
  split at h
  · rename_i y1 y2 y3 y4 s1 m1 m2 s2 d1 d2 heq
    split at h
    · rename_i hc
      simp only [Bool.and_eq_true, beq_iff_eq] at hc
      obtain ⟨⟨hs1, hs2⟩, hall⟩ := hc
      subst hs1 hs2
      simp only at h
      split at h
      · rename_i hv
        refine ⟨y1, y2, y3, y4, m1, m2, d1, d2, heq, hall, hv.1, hv.2.1, hv.2.2.1, hv.2.2.2, ?_⟩
        exact (Option.some.inj h).symm
      · cases h
    · cases h
  · cases h

/-- For a string `YYYY-MM-DD` that names a calendar date of a year from 1000 on,
the year-month key of its time value read in UTC is the `YYYY-MM` it starts
with. -/
theorem utcKey_of_isoDate (s : String) (t : Int) (h : parseIsoDate s = some t)
    (hy : s.data.head? ≠ some '0') : (utcKey t).data = s.data.take 7 := by
  obtain ⟨y1, y2, y3, y4, m1, m2, d1, d2, hs, hall, hm1, hm2, hd1, hd2, ht⟩ :=
    parseIsoDate_some s t h
  simp only [List.all_cons, List.all_nil, Bool.and_true, Bool.and_eq_true] at hall
  obtain ⟨a1, a2, a3, a4, a5, a6, a7, a8⟩ := hall
  have v1 := digitVal_lt y1 a1
  have v2 := digitVal_lt y2 a2
  have v3 := digitVal_lt y3 a3
  have v4 := digitVal_lt y4 a4
  have v5 := digitVal_lt m1 a5
  have v6 := digitVal_lt m2 a6
  have hy1 : 1 ≤ digitVal y1 := by
    rcases Nat.eq_zero_or_pos (digitVal y1) with h0 | h0
    · exfalso
      apply hy
      rw [hs]
      have := digitChar_digitVal y1 a1
      rw [h0] at this
      simp only [List.head?_cons]
      rw [← this]
      rfl
    · exact h0
  generalize hn : digitVal y1 * 1000 + digitVal y2 * 100 + digitVal y3 * 10 + digitVal y4 = n
    at hd2 ht
  generalize hm : digitVal m1 * 10 + digitVal m2 = m at hm1 hm2 hd2 ht
  generalize hd : digitVal d1 * 10 + digitVal d2 = d at hd1 hd2 ht
  obtain ⟨r1, r2⟩ := civil_roundtrip (n : Int) m d hm1 hm2 hd1 hd2
  have hdiv : t / msPerDay = daysFromCivil (n : Int) m d := by
    rw [ht]
    exact Int.mul_ediv_cancel _ (by decide)
  have hmm : monthFromDays (daysFromCivil (n : Int) m d) = m - 1 := by omega
  unfold utcKey
  rw [hdiv, r1, hmm, monthKey_data n (m - 1) (by omega) (by omega) (by omega), hs]
  have em : m - 1 + 1 = m := by omega
  rw [em]
  have e1 : n / 1000 = digitVal y1 := by omega
  have e2 : n / 100 % 10 = digitVal y2 := by omega
  have e3 : n / 10 % 10 = digitVal y3 := by omega
  have e4 : n % 10 = digitVal y4 := by omega
  have e5 : m / 10 = digitVal m1 := by omega
  have e6 : m % 10 = digitVal m2 := by omega
  rw [e1, e2, e3, e4, e5, e6, digitChar_digitVal y1 a1, digitChar_digitVal y2 a2,
    digitChar_digitVal y3 a3, digitChar_digitVal y4 a4, digitChar_digitVal m1 a5,
    digitChar_digitVal m2 a6]
  rfl

theorem newDate_of_isoDate (env : DateEnv) (s : String) (t : Int)
    (h : parseIsoDate s = some t) : newDate env (.str s) = some t := by
  obtain ⟨y1, y2, y3, y4, m1, m2, d1, d2, _, hall, hm1, hm2, hd1, hd2, ht⟩ :=
    parseIsoDate_some s t h
  simp only [List.all_cons, List.all_nil, Bool.and_true, Bool.and_eq_true] at hall
  obtain ⟨a1, a2, a3, a4, _, _, _, _⟩ := hall
  have v1 := digitVal_lt y1 a1
  have v2 := digitVal_lt y2 a2
  have v3 := digitVal_lt y3 a3
  have v4 := digitVal_lt y4 a4
  generalize hn : digitVal y1 * 1000 + digitVal y2 * 100 + digitVal y3 * 10 + digitVal y4 = n
    at hd2 ht
  generalize digitVal m1 * 10 + digitVal m2 = m at hm1 hm2 hd2 ht
  generalize digitVal d1 * 10 + digitVal d2 = d at hd1 hd2 ht
  have hd31 := (day_bounds (n : Int) m d hd2).1
  have hb : -800000 ≤ daysFromCivil (n : Int) m d ∧ daysFromCivil (n : Int) m d ≤ 3000000 := by
    rw [daysFromCivil_eq (n : Int) m d hm1 hm2 hd1]
    constructor <;> split <;> split <;> omega
  have hc : timeClip t = some t := by
    unfold timeClip
    rw [if_pos]
    rw [ht]
    unfold msPerDay
    omega
  simp only [newDate, dateParse, h, Option.bind, hc]

theorem rowKey_eq_dateKey (env : DateEnv) (r : Row) (h : sameMonthAsUtc env r = true) :
    rowKey env r = dateKey env r := by
  unfold rowKey dateKey
  unfold sameMonthAsUtc at h
  cases ht : rowTime env r with
  | none => rfl
  | some t =>
    simp only [ht, decide_eq_true_eq] at h
    simp only [Option.map_some', periodKey, utcKey, h.1, h.2]

theorem sameMonthAsUtc_of_utc (env : DateEnv) (h : ∀ t, env.localTZA t = 0) (r : Row) :
    sameMonthAsUtc env r = true := by
  unfold sameMonthAsUtc
  cases rowTime env r with
  | none => rfl
  | some t => simp [getFullYear, getMonth, localTime, h t]

theorem isSome_rowKey (env : DateEnv) (r : Row) :
    (rowKey env r).isSome = (rowTime env r).isSome := by
  unfold rowKey
  cases rowTime env r <;> rfl

/-! ## The claims -/

/-- C1: one row whose status is `__proto__` gets no bucket at all, so the status
aggregation has no bucket for the label of that row and its counts sum to 0 for
1 row; one row whose status is `constructor` gets a bucket whose value is a
string, not the count 1. -/
theorem aggByStatus_inherited_label :
    statusOf [("status", .str "__proto__")] = "__proto__"
    ∧ aggByStatus [[("status", .str "__proto__")]] = []
    ∧ ((aggByStatus [[("status", .str "__proto__")]]).map Bucket.count).sum
        ≠ [[("status", Cell.str "__proto__")]].length
    ∧ aggByStatus [[("status", .str "constructor")]]
        = [⟨"constructor", .junk "constructor" 1⟩] := by
  decide

/-- C2 (as stated): with locations `b` then `1`, both of count 1, the code puts
the array-index label `1` first, while first-seen order puts `b` first. -/
theorem aggByLocation_not_first_seen :
    aggByLocation locationIndexRows = [⟨"1", .num 1⟩, ⟨"b", .num 1⟩]
    ∧ firstSeenTop 10 (locationIndexRows.map locationOf) = [⟨"b", .num 1⟩, ⟨"1", .num 1⟩]
    ∧ aggByLocation locationIndexRows ≠ firstSeenTop 10 (locationIndexRows.map locationOf) := by
  decide

/-- C2 (amended): for labels none of which is a property of `Object.prototype`,
the location aggregation is the first 10, and the top-users list the first 7, of
the stable descending sort of the distinct labels in enumeration order
(array-index labels ascending, then the others in first-seen order) with their
row counts. The stable descending sort is a permutation, is sorted by descending
count, keeps buckets of equal count in their order, and its first `n` elements
are at most `n` and dominate the omitted ones. -/
theorem top_buckets_enumeration_order (rows : List Row) :
    ((∀ r ∈ rows, inherited (locationOf r) = false) →
      aggByLocation rows = (stableDesc (enumCounts (rows.map locationOf))).take 10)
    ∧ ((∀ r ∈ rows, inherited (userOf r) = false) →
      topUsers rows = (stableDesc (enumCounts (rows.map userOf))).take 7)
    ∧ (∀ ks : List String,
        (enumCounts ks).map (fun b => b.name) = enumOrder (firstSeen ks)
        ∧ ∀ b ∈ enumCounts ks, b.value = .num (ks.count b.name))
    ∧ (∀ bs : List Bucket,
        (stableDesc bs).Perm bs
        ∧ (stableDesc bs).Pairwise (fun a b => b.count ≤ a.count)
        ∧ (∀ c, (stableDesc bs).filter (fun b => b.count == c)
                  = bs.filter (fun b => b.count == c))
        ∧ ∀ n, ((stableDesc bs).take n).length ≤ n
            ∧ ∀ x ∈ (stableDesc bs).drop n, ∀ y ∈ (stableDesc bs).take n,
                x.count ≤ y.count) := by
  refine ⟨fun h => top_eq locationOf rows 10 h, fun h => top_eq userOf rows 7 h, ?_, ?_⟩
  · intro ks
    refine ⟨names_enumCounts ks, ?_⟩
    intro b hb
    simp only [enumCounts, List.mem_map] at hb
    obtain ⟨k, _, rfl⟩ := hb
    rfl
  · intro bs
    refine ⟨stableDesc_perm bs, stableDesc_sorted bs, stableDesc_stable bs, ?_⟩
    intro n
    exact ⟨List.length_take_le _ _, take_drop_sorted _ n (stableDesc_sorted bs)⟩

/-- Witness for C2: rows with locations `b`, `1`, `c`, `c`. -/
theorem top_buckets_enumeration_order_witness :
    aggByLocation [[("location", .str "b")], [("location", .str "1")],
        [("location", .str "c")], [("location", .str "c")]]
      = (stableDesc (enumCounts ([[("location", .str "b")], [("location", .str "1")],
          [("location", .str "c")], [("location", .str "c")]].map locationOf))).take 10 :=
  (top_buckets_enumeration_order _).1 (by decide)

/-- C3 (as stated): with statuses Retired, Active, Active the status aggregation
is Retired 1, Active 2, which is not sorted by descending count. -/
theorem aggByStatus_not_sorted :
    aggByStatus statusUnsortedRows = [⟨"Retired", .num 1⟩, ⟨"Active", .num 2⟩]
    ∧ ¬ (aggByStatus statusUnsortedRows).Pairwise (fun a b => b.count ≤ a.count) := by
  decide

/-- C3 (amended): for status labels none of which is a property of
`Object.prototype`, the status aggregation lists the distinct labels in
enumeration order (array-index labels ascending, then the others in first-seen
order), each with its row count, and is not sorted by count; when no label is an
array index the order is first-seen order. Statuses Active, Active, Retired give
Active 2, Retired 1. -/
theorem aggByStatus_enumeration_order (rows : List Row)
    (h : ∀ r ∈ rows, inherited (statusOf r) = false) :
    aggByStatus rows = enumCounts (rows.map statusOf)
    ∧ ((∀ r ∈ rows, arrayIndex (statusOf r) = none) →
        aggByStatus rows = firstSeenCounts (rows.map statusOf))
    ∧ aggByStatus statusExampleRows = [⟨"Active", .num 2⟩, ⟨"Retired", .num 1⟩] := by
  refine ⟨aggByStatus_eq rows h, ?_, by decide⟩
  intro hidx
  rw [aggByStatus_eq rows h, enumCounts, firstSeenCounts, enumOrder_eq_self]
  intro k hk
  rw [mem_firstSeen] at hk
  obtain ⟨r, hr, rfl⟩ := List.mem_map.1 hk
  exact hidx r hr

/-- Witness for C3: the rows with statuses Retired, Active, Active. -/
theorem aggByStatus_enumeration_order_witness :
    aggByStatus statusUnsortedRows = enumCounts (statusUnsortedRows.map statusOf) :=
  (aggByStatus_enumeration_order statusUnsortedRows (by decide)).1

/-- C4 (as stated): a row with `location` empty and `Location` equal to `HQ`
resolves to `HQ`, not to the value of `location`, the first present key. -/
theorem locationOf_skips_empty :
    locationOf emptyLocationRow = "HQ"
    ∧ firstPresent emptyLocationRow locationKeys = some (.str "")
    ∧ locationOf emptyLocationRow ≠ resolvePresent locationKeys locationFallback emptyLocationRow := by
  decide

/-- C4 (amended): the resolved label is the text of the value under the first
key of the priority list whose value is truthy (a non-empty string or a non-zero
number), and the fallback label when no key has one; the three fields use the
priority lists and fallbacks named, and a row with an empty `location` and
`Location` equal to `HQ` resolves to `HQ`. -/
theorem resolve_first_truthy :
    (∀ (keys : List String) (fallback : String) (r : Row),
      resolve keys fallback r =
        match keys.find? (truthyAt r) with
        | some k => textAt r k
        | none => fallback)
    ∧ (∀ r, locationOf r = resolve ["location", "Location"] "Sin ubicación" r)
    ∧ (∀ r, statusOf r = resolve ["status", "Status"] "Desconocido" r)
    ∧ (∀ r, userOf r = resolve ["user", "User", "usuario"] "Sin usuario" r)
    ∧ locationOf emptyLocationRow = "HQ" :=
  ⟨resolve_eq_find, fun _ => rfl, fun _ => rfl, fun _ => rfl, by decide⟩

/-- C5: a row in which no accepted key of a field is present resolves to the
field's fallback label; the three fallback labels are pairwise distinct; and the
row is counted: the fallback bucket, holding the positive number of rows that
resolve to the fallback label, is in the status aggregation and in the sorted
location and user bucket lists before their truncation, hence in the location
aggregation and the top-users list when these are not truncated. -/
theorem fallback_label_counted (rows : List Row) (r : Row) (hr : r ∈ rows) :
    ((∀ k ∈ locationKeys, r.lookup k = none) →
      locationOf r = "Sin ubicación"
      ∧ 0 < (rows.map locationOf).count "Sin ubicación"
      ∧ (⟨"Sin ubicación", .num ((rows.map locationOf).count "Sin ubicación")⟩ : Bucket)
          ∈ jsSort byValueDesc ((entries (countBy locationOf rows)).map toBucket)
      ∧ ((entries (countBy locationOf rows)).length ≤ 10 →
          (⟨"Sin ubicación", .num ((rows.map locationOf).count "Sin ubicación")⟩ : Bucket)
            ∈ aggByLocation rows))
    ∧ ((∀ k ∈ statusKeys, r.lookup k = none) →
      statusOf r = "Desconocido"
      ∧ 0 < (rows.map statusOf).count "Desconocido"
      ∧ (⟨"Desconocido", .num ((rows.map statusOf).count "Desconocido")⟩ : Bucket)
          ∈ aggByStatus rows)
    ∧ ((∀ k ∈ userKeys, r.lookup k = none) →
      userOf r = "Sin usuario"
      ∧ 0 < (rows.map userOf).count "Sin usuario"
      ∧ (⟨"Sin usuario", .num ((rows.map userOf).count "Sin usuario")⟩ : Bucket)
          ∈ jsSort byValueDesc ((entries (countBy userOf rows)).map toBucket)
      ∧ ((entries (countBy userOf rows)).length ≤ 7 →
          (⟨"Sin usuario", .num ((rows.map userOf).count "Sin usuario")⟩ : Bucket)
            ∈ topUsers rows))
    ∧ locationFallback ≠ statusFallback ∧ locationFallback ≠ userFallback
    ∧ statusFallback ≠ userFallback := by
  refine ⟨?_, ?_, ?_, by decide, by decide, by decide⟩
  · intro habs
    have e : locationOf r = "Sin ubicación" := resolve_of_absent _ _ r habs
    have hk : inherited (locationOf r) = false := by rw [e]; decide
    have := label_counted locationOf rows r hr hk
    rw [e] at this
    refine ⟨e, this.1, this.2.2, fun hlen => ?_⟩
    have e2 : aggByLocation rows
        = jsSort byValueDesc ((entries (countBy locationOf rows)).map toBucket) :=
      slice_short _ 10 (by rw [length_jsSort, List.length_map]; exact hlen)
    rw [e2]
    exact this.2.2
  · intro habs
    have e : statusOf r = "Desconocido" := resolve_of_absent _ _ r habs
    have hk : inherited (statusOf r) = false := by rw [e]; decide
    have := label_counted statusOf rows r hr hk
    rw [e] at this
    exact ⟨e, this.1, this.2.1⟩
  · intro habs
    have e : userOf r = "Sin usuario" := resolve_of_absent _ _ r habs
    have hk : inherited (userOf r) = false := by rw [e]; decide
    have := label_counted userOf rows r hr hk
    rw [e] at this
    refine ⟨e, this.1, this.2.2, fun hlen => ?_⟩
    have e2 : topUsers rows
        = jsSort byValueDesc ((entries (countBy userOf rows)).map toBucket) :=
      slice_short _ 7 (by rw [length_jsSort, List.length_map]; exact hlen)
    rw [e2]
    exact this.2.2

/-- Witness for C5: a row with only a serial among two rows. -/
theorem fallback_label_counted_witness :
    statusOf [("serial", .str "X1")] = "Desconocido"
    ∧ 0 < ([[("status", .str "Active")], [("serial", .str "X1")]].map statusOf).count "Desconocido"
    ∧ (⟨"Desconocido", .num (([[("status", .str "Active")], [("serial", .str "X1")]].map
          statusOf).count "Desconocido")⟩ : Bucket)
        ∈ aggByStatus [[("status", .str "Active")], [("serial", .str "X1")]] :=
  (fallback_label_counted [[("status", .str "Active")], [("serial", .str "X1")]]
    [("serial", .str "X1")] (by decide)).2.1 (by decide)

/-- C6: a row whose only value is the number 0 is not matched by the search
term `0`, whatever the lower-casing does, as long as it keeps `0` non-empty:
the cell is replaced by the empty string before it is stringified. -/
theorem filtered_misses_zero (lower : String → String) (h : lower "0" ≠ "")
    (h0 : lower "" = "") :
    filtered lower [[("qty", .num 0)]] "0" = [] := by
  have : includes (lower (Cell.num 0).text) (lower "0") = false := by
    have e : (Cell.num 0).text = "" := by decide
    rw [e, h0]
    exact includes_empty_left _ h
  simp [filtered, this]

/-- Witness for C6: ASCII lower-casing. -/
theorem filtered_misses_zero_witness :
    filtered asciiLower [[("qty", .num 0)]] "0" = [] :=
  filtered_misses_zero asciiLower (by decide) (by decide)

/-- C7: for a page number `p ≥ 1` whose start `(p - 1) * 20` is at or beyond the
number of filtered rows, the page slice is empty and the total matched count is
the one of page 1. -/
theorem page_beyond_last_empty (lower : String → String) (rows : List Row) (query : String)
    (p : Int) (hp : 1 ≤ p) (h : ((filtered lower rows query).length : Int) ≤ (p - 1) * 20) :
    (queryView lower rows query p).matchedRows = []
    ∧ paged (filtered lower rows query) p = []
    ∧ (queryView lower rows query p).totalMatched = (queryView lower rows query 1).totalMatched
    ∧ (queryView lower rows query p).totalMatched = (filtered lower rows query).length := by
  have e : paged (filtered lower rows query) p = [] := by
    rw [paged_eq _ p hp, List.drop_of_length_le (by omega), List.take_nil]
  exact ⟨e, e, rfl, rfl⟩

/-- Witness for C7: page 2 of a single row. -/
theorem page_beyond_last_empty_witness :
    (queryView asciiLower [[("serial", .str "X1")]] "" 2).matchedRows = []
    ∧ paged (filtered asciiLower [[("serial", .str "X1")]] "") 2 = []
    ∧ (queryView asciiLower [[("serial", .str "X1")]] "" 2).totalMatched
        = (queryView asciiLower [[("serial", .str "X1")]] "" 1).totalMatched
    ∧ (queryView asciiLower [[("serial", .str "X1")]] "" 2).totalMatched
        = (filtered asciiLower [[("serial", .str "X1")]] "").length :=
  page_beyond_last_empty asciiLower [[("serial", .str "X1")]] "" 2 (by decide) (by decide)

/-- C8 (as stated): a row with an empty `purchase_date` and `PurchaseDate` equal
to `2024-03-15` is counted in the point `2024-03`, although the value of its
first present key, the empty string, is not a date. -/
theorem timeSeries_counts_later_key :
    timeSeriesByPurchase utcEnv [emptyPurchaseRow] = [⟨"2024-03", .num 1⟩]
    ∧ firstPresent emptyPurchaseRow purchaseKeys = some (.str "")
    ∧ presentDateParses utcEnv emptyPurchaseRow = false
    ∧ ((timeSeriesByPurchase utcEnv [emptyPurchaseRow]).map Bucket.count).sum
        ≠ [emptyPurchaseRow].countP (presentDateParses utcEnv) := by
  decide

/-- C8 (amended): the time series counts exactly the rows whose purchase date,
the first truthy value of the priority list `purchase_date`, `purchaseDate`,
`PurchaseDate`, `purchase date`, makes a valid date. The point counts sum to the
number of such rows, which is at most the number of rows, and the keys are
distinct, so a row with no truthy value or an invalid date adds to no point.
When local time puts every such date in the same year and month as UTC does,
as it does in a UTC runtime, each point holds the number of rows whose date has
its key as year-month, and every such row has the point of its year-month; for
a `YYYY-MM-DD` date of a year from 1000 on that year-month is the `YYYY-MM` as
written. With `not-a-date` unparseable and a local offset of at most a day, the
two example rows give the single point `2024-03` with count 1. -/
theorem timeSeries_counts_dated_rows (env : DateEnv) (rows : List Row) :
    ((timeSeriesByPurchase env rows).map Bucket.count).sum
        = rows.countP (fun r => (rowTime env r).isSome)
    ∧ rows.countP (fun r => (rowTime env r).isSome) ≤ rows.length
    ∧ ((timeSeriesByPurchase env rows).map (fun b => b.name)).Nodup
    ∧ (∀ r, rowTime env r
        = ((purchaseKeys.find? (truthyAt r)).bind (fun k => r.lookup k)).bind (newDate env))
    ∧ ((∀ r ∈ rows, sameMonthAsUtc env r = true) →
        (∀ b ∈ timeSeriesByPurchase env rows,
          b.value = .num (rows.countP (fun r => dateKey env r == some b.name))
          ∧ 0 < rows.countP (fun r => dateKey env r == some b.name))
        ∧ (∀ r ∈ rows, ∀ k, dateKey env r = some k →
            ∃ b ∈ timeSeriesByPurchase env rows, b.name = k))
    ∧ ((∀ t, env.localTZA t = 0) → ∀ r, sameMonthAsUtc env r = true)
    ∧ (∀ s t, parseIsoDate s = some t →
        newDate env (.str s) = some t
        ∧ (s.data.head? ≠ some '0' → (utcKey t).data = s.data.take 7))
    ∧ (env.parseOther "not-a-date" = none →
        (∀ t, -msPerDay ≤ env.localTZA t ∧ env.localTZA t ≤ msPerDay) →
        timeSeriesByPurchase env purchaseExampleRows = [⟨"2024-03", .num 1⟩]) := by
  obtain ⟨h1, h2, h3, h4⟩ := timeSeries_points env rows
  have e : (fun r => (rowKey env r).isSome) = (fun r => (rowTime env r).isSome) := by
    funext r; exact isSome_rowKey env r
  rw [e] at h1
  refine ⟨h1, List.countP_le_length _, h2, ?_, ?_, sameMonthAsUtc_of_utc env,
    fun s t hst => ⟨newDate_of_isoDate env s t hst, utcKey_of_isoDate s t hst⟩,
    timeSeries_example env⟩
  · intro r
    rw [rowTime, firstTruthy_eq_find]
  · intro hs
    have hc : ∀ k, rows.countP (fun r => rowKey env r == some k)
        = rows.countP (fun r => dateKey env r == some k) := by
      intro k
      apply List.countP_congr
      intro r hr
      rw [rowKey_eq_dateKey env r (hs r hr)]
    constructor
    · intro b hb
      have := h3 b hb
      rw [hc] at this
      exact this
    · intro r hr k hk
      rw [← rowKey_eq_dateKey env r (hs r hr)] at hk
      exact h4 r hr k hk

/-- Witness for C8: rows dated 1 and 15 March 2024 and 31 December 2023, and
one undated row, in a UTC runtime. -/
theorem timeSeries_counts_dated_rows_witness :
    timeSeriesByPurchase utcEnv twoMonthRows = [⟨"2023-12", .num 1⟩, ⟨"2024-03", .num 2⟩]
    ∧ twoMonthRows.map (dateKey utcEnv) = [some "2024-03", some "2024-03", none, some "2023-12"]
    ∧ (∀ b ∈ timeSeriesByPurchase utcEnv twoMonthRows,
        b.value = .num (twoMonthRows.countP (fun r => dateKey utcEnv r == some b.name))
        ∧ 0 < twoMonthRows.countP (fun r => dateKey utcEnv r == some b.name))
    ∧ (∀ r ∈ twoMonthRows, ∀ k, dateKey utcEnv r = some k →
        ∃ b ∈ timeSeriesByPurchase utcEnv twoMonthRows, b.name = k) :=
  ⟨by decide, by decide,
    (timeSeries_counts_dated_rows utcEnv twoMonthRows).2.2.2.2.1 (by decide)⟩

/-- C9 (as stated): with purchase dates `2024-03-15` and `0999-12-31` the series
is `2024-03`, `999-12`: the second key is not of the form `YYYY-MM`, and the
order of the keys is not the order of the dates, December 999 coming last. -/
theorem timeSeries_short_year :
    timeSeriesByPurchase utcEnv oldYearRows = [⟨"2024-03", .num 1⟩, ⟨"999-12", .num 1⟩]
    ∧ isYearMonthKey "999-12" = false
    ∧ oldYearRows.map (fun r =>
        (rowTime utcEnv r).map (fun t => (getFullYear utcEnv t, getMonth utcEnv t)))
        = [some (2024, 2), some (999, 11)] := by
  decide

/-- C9 (amended): for every list of rows the points have pairwise distinct keys
and are sorted strictly ascending by key in the order of code points. When
every counted row has a local year from 1000 to 9999, the keys have the form
`YYYY-MM` and are those of a list of (year, zero-based month) pairs of counted
rows in strictly ascending chronological order. -/
theorem timeSeries_sorted_chronologically (env : DateEnv) (rows : List Row) :
    ((timeSeriesByPurchase env rows).map (fun b => b.name)).Nodup
    ∧ (timeSeriesByPurchase env rows).Pairwise (fun a b => a.name.data < b.name.data)
    ∧ ((∀ r ∈ rows, fourDigitYear env r = true) →
        (∀ b ∈ timeSeriesByPurchase env rows, isYearMonthKey b.name = true)
        ∧ ∃ L : List (Int × Nat),
            (timeSeriesByPurchase env rows).map (fun b => b.name)
              = L.map (fun p => monthKey p.1 p.2)
            ∧ L.Pairwise (fun p q => p.1 < q.1 ∨ (p.1 = q.1 ∧ p.2 < q.2))
            ∧ ∀ p ∈ L, 1000 ≤ p.1 ∧ p.1 ≤ 9999 ∧ p.2 < 12
                ∧ ∃ r ∈ rows, ∃ t, rowTime env r = some t
                    ∧ p = (getFullYear env t, getMonth env t)) := by
  have hsorted := timeSeries_strictly_sorted env rows
  refine ⟨(timeSeries_points env rows).2.1, hsorted, ?_⟩
  intro h
  have hname : ∀ n ∈ (timeSeriesByPurchase env rows).map (fun b => b.name),
      ∃ p : Int × Nat, (1000 ≤ p.1 ∧ p.1 ≤ 9999 ∧ p.2 < 12
            ∧ ∃ r ∈ rows, ∃ t, rowTime env r = some t
                ∧ p = (getFullYear env t, getMonth env t))
        ∧ n = (fun p : Int × Nat => monthKey p.1 p.2) p := by
    intro n hn
    obtain ⟨b, hb, rfl⟩ := List.mem_map.1 hn
    obtain ⟨r, hr, t, ht, hbn⟩ := mem_timeSeries_name env rows b hb
    have hy := h r hr
    simp only [fourDigitYear, ht, decide_eq_true_eq] at hy
    exact ⟨(getFullYear env t, getMonth env t),
      ⟨hy.1, hy.2, monthFromDays_lt _, r, hr, t, ht, rfl⟩, hbn⟩
  constructor
  · intro b hb
    obtain ⟨p, hp, hbn⟩ := hname b.name (List.mem_map_of_mem (fun b => b.name) hb)
    rw [hbn]
    exact isYearMonthKey_monthKey p.1 p.2 hp.1 hp.2.1 hp.2.2.1
  · obtain ⟨L, hL, hP⟩ := exists_preimage_list _ _ _ hname
    refine ⟨L, hL, ?_, hP⟩
    have hs2 : ((timeSeriesByPurchase env rows).map (fun b => b.name)).Pairwise
        (fun a b => a.data < b.data) := by
      rw [List.pairwise_map]
      exact hsorted
    rw [hL, List.pairwise_map] at hs2
    refine hs2.imp_of_mem ?_
    intro p q hp hq hpq
    have a := hP p hp
    have b := hP q hq
    exact (monthKey_lt_iff_int p.1 q.1 p.2 q.2 a.1 a.2.1 a.2.2.1 b.1 b.2.1 b.2.2.1).1 hpq

/-- Witness for C9: rows dated 15 March 2024, 2 November 2023 and 20 March 2024
give the two points `2023-11` and `2024-03`, in that order. -/
theorem timeSeries_sorted_chronologically_witness :
    timeSeriesByPurchase utcEnv threeDateRows = [⟨"2023-11", .num 1⟩, ⟨"2024-03", .num 2⟩]
    ∧ (timeSeriesByPurchase utcEnv threeDateRows).Pairwise
        (fun a b => a.name.data < b.name.data)
    ∧ (∀ b ∈ timeSeriesByPurchase utcEnv threeDateRows, isYearMonthKey b.name = true)
    ∧ ∃ L : List (Int × Nat),
        (timeSeriesByPurchase utcEnv threeDateRows).map (fun b => b.name)
          = L.map (fun p => monthKey p.1 p.2)
        ∧ L.Pairwise (fun p q => p.1 < q.1 ∨ (p.1 = q.1 ∧ p.2 < q.2))
        ∧ ∀ p ∈ L, 1000 ≤ p.1 ∧ p.1 ≤ 9999 ∧ p.2 < 12
            ∧ ∃ r ∈ threeDateRows, ∃ t, rowTime utcEnv r = some t
                ∧ p = (getFullYear utcEnv t, getMonth utcEnv t) :=
  ⟨by decide, (timeSeries_sorted_chronologically utcEnv threeDateRows).2.1,
    (timeSeries_sorted_chronologically utcEnv threeDateRows).2.2 (by decide)⟩

/-- C10: the page slices of pages 1 to `ceil(n / 20)`, concatenated in order,
are the filtered list; every page slice has at most 20 rows and every page
before the last has exactly 20. -/
theorem pages_partition (rows : List Row) :
    ((List.range (pagesNeeded rows.length)).map (fun (i : Nat) => paged rows ((i : Int) + 1))).flatten
      = rows
    ∧ (∀ p : Int, (paged rows p).length ≤ 20)
    ∧ (∀ p : Int, 1 ≤ p → p < (pagesNeeded rows.length : Int) → (paged rows p).length = 20) := by
  refine ⟨?_, ?_, ?_⟩
  · have h1 : (List.range (pagesNeeded rows.length)).map (fun (i : Nat) => paged rows ((i : Int) + 1))
        = (List.range (pagesNeeded rows.length)).map (fun i => (rows.drop (20 * i)).take 20) := by
      apply List.map_congr_left
      intro i _
      rw [paged_eq rows _ (by omega)]
      have : ((i : Int) + 1 - 1).toNat = i := by omega
      rw [this]
    rw [h1, flatten_chunks, List.take_of_length_le]
    unfold pagesNeeded
    omega
  · intro p
    unfold paged slice pageSize
    refine le_trans (List.length_take_le _ _) ?_
    split_ifs <;> omega
  · intro p hp1 hp2
    rw [paged_eq rows p hp1, List.length_take, List.length_drop]
    unfold pagesNeeded at hp2
    omega

/-- Witness for C10: page 1 of 21 rows is a page before the last. -/
theorem pages_partition_witness :
    (paged (List.replicate 21 [("serial", Cell.str "X1")]) 1).length = 20 :=
  (pages_partition (List.replicate 21 [("serial", Cell.str "X1")])).2.2 1 (by decide) (by decide)

/-- C11: the page number starts at 1; "Anterior" sets it to `max(1, p - 1)`,
"Siguiente" to `p + 1`, a change of the search term to 1, and a replacement of
the rows leaves it; each event keeps it at least 1, so it is at least 1 in
every reachable state; and for any rows and search term a state is reachable
whose page number exceeds the displayed page count `max(1, ceil(n / 20))`. -/
theorem page_number_at_least_one (lower : String → String) :
    initialState.page = 1
    ∧ (∀ s : ListingState,
        (step s .anterior).page = max 1 (s.page - 1)
        ∧ (step s .siguiente).page = s.page + 1
        ∧ (∀ q, (step s (.search q)).page = 1)
        ∧ (∀ rows, (step s (.setRows rows)).page = s.page))
    ∧ (∀ (s : ListingState) (a : Action), 1 ≤ s.page → 1 ≤ (step s a).page)
    ∧ (∀ actions : List Action, 1 ≤ (run actions).page)
    ∧ (∀ (rows : List Row) (query : String), ∃ actions : List Action,
        (run actions).rows = rows ∧ (run actions).query = query
        ∧ pageCount lower (run actions) < (run actions).page) := by
  refine ⟨rfl, fun s => ⟨rfl, rfl, fun _ => rfl, fun _ => rfl⟩, step_page_pos, run_page_pos, ?_⟩
  intro rows query
  have hb : run [Action.setRows rows, Action.search query] = ⟨rows, query, 1⟩ := rfl
  let k : Nat := (pageCount lower ⟨rows, query, 1⟩).toNat
  refine ⟨[Action.setRows rows, Action.search query] ++ List.replicate k Action.siguiente, ?_⟩
  rw [run_siguiente, hb]
  refine ⟨rfl, rfl, ?_⟩
  show pageCount lower ⟨rows, query, 1 + (k : Int)⟩ < 1 + (k : Int)
  have e : pageCount lower ⟨rows, query, 1 + (k : Int)⟩ = pageCount lower ⟨rows, query, 1⟩ := rfl
  rw [e]
  have hpos : 1 ≤ pageCount lower ⟨rows, query, 1⟩ := le_max_left _ _
  omega

/-- Witness for C11: "Anterior" on page 1 stays on page 1. -/
theorem page_number_at_least_one_witness :
    1 ≤ (step ⟨[], "", 1⟩ Action.anterior).page :=
  (page_number_at_least_one asciiLower).2.2.1 ⟨[], "", 1⟩ Action.anterior (by decide)

/-- C12: for one row whose location is `__proto__` there is one distinct
location label, but the location aggregation is empty and the metric shows 0,
not `min(10, 1) = 1`. -/
theorem ubicaciones_misses_proto_label :
    locationOf [("location", .str "__proto__")] = "__proto__"
    ∧ distinctLocations [[("location", .str "__proto__")]] = 1
    ∧ aggByLocation [[("location", .str "__proto__")]] = []
    ∧ ubicacionesRegistradas [[("location", .str "__proto__")]]
        ≠ min 10 (distinctLocations [[("location", .str "__proto__")]]) := by
  decide

end InventoryDashboard
